import Mathlib

/-!
Verification of the pre-submit hook pipeline of `WorkspaceService`
(`src/services/workspaceService.ts`): `substituteVariables`,
`processPreSubmitHooks` and the helpers they use.

The TypeScript code is shallowly embedded: external effects (the
filesystem read of `.acmoj/pre-submit.json`, `JSON.parse`, the editor
command invocation, and process spawning) are modelled as explicit input
data (`ConfigOutcome`, `StepEnv`), while the pipeline's own control flow,
state threading and string manipulation are translated function by
function.  Recursions over character lists carry an explicit fuel
argument (initialised to the list length, which every scan consumes at
least one unit of per step) so that all definitions reduce by `decide`.
-/

namespace Acmoj

/-! ### Characters used by the string scanners

Written via `Char.ofNat` codes: dollar 36, double quote 34, apostrophe 39,
ampersand 38, backquote 96, braces 123/125, dot 46, slash 47. -/

def dollarC : Char := Char.ofNat 36

def dquoteC : Char := Char.ofNat 34

def squoteC : Char := Char.ofNat 39

def ampC : Char := Char.ofNat 38

def backqC : Char := Char.ofNat 96

def lbraceC : Char := Char.ofNat 123

def rbraceC : Char := Char.ofNat 125

def dotC : Char := Char.ofNat 46

def slashC : Char := Char.ofNat 47

/-! ### JavaScript `String.prototype.replace` with a string pattern-free
global regex whose pattern is a literal

`substituteVariables` runs `result.replace(new RegExp("\\$\\{KEY\\}", 'g'),
variables[key])`.  For keys made of identifier characters (all keys the
extension ever passes are `ACMOJ_…` names) the regex matches exactly the
literal text `${KEY}`.  JavaScript interprets dollar sequences inside the
replacement string (`$$` a literal dollar, `$&` the matched text, a
dollar-backquote the part of the subject before the match, a
dollar-apostrophe the part after; `$n`/`$<` are literal here because the
regex has no capture groups), which `expandRepl` reproduces. -/

def expandRepl (matched before after : List Char) : List Char → List Char
  | [] => []
  | [c] => [c]
  | c :: d :: rest2 =>
    if c = dollarC then
      if d = dollarC then dollarC :: expandRepl matched before after rest2
      else if d = ampC then matched ++ expandRepl matched before after rest2
      else if d = backqC then before ++ expandRepl matched before after rest2
      else if d = squoteC then after ++ expandRepl matched before after rest2
      else c :: expandRepl matched before after (d :: rest2)
    else c :: expandRepl matched before after (d :: rest2)

/-- Global replacement of the literal pattern `p :: ps` by `repl` in `rest`,
with JS replacement-string expansion.  `seen` is the part of the original
subject already consumed (needed for the dollar-backquote form); `fuel`
starts at the subject length and each step consumes at least one
character. -/
def jsReplaceAllAux (p : Char) (ps repl : List Char) :
    Nat → List Char → List Char → List Char
  | 0, _, _ => []
  | _ + 1, _, [] => []
  | fuel + 1, seen, c :: rs =>
    if (p :: ps).isPrefixOf (c :: rs) then
      expandRepl (p :: ps) seen (rs.drop ps.length) repl ++
        jsReplaceAllAux p ps repl fuel (seen ++ p :: ps) (rs.drop ps.length)
    else
      c :: jsReplaceAllAux p ps repl fuel (seen ++ [c]) rs

/-- `s.replace(new RegExp(escape(pat), 'g'), repl)` for a literal pattern
`pat` (nonempty in every use: the pattern is always `"${" ++ key ++ "}"`). -/
def jsReplaceAll (pat repl s : String) : String :=
  match pat.toList with
  | [] => s
  | p :: ps =>
    String.mk (jsReplaceAllAux p ps repl.toList s.toList.length [] s.toList)

/-- `substituteVariables` (workspaceService.ts lines 263-275).  The record
of variables is modelled as an association list `vars` in the object's
`for…in` iteration order; each iteration replaces every occurrence of
`${key}` in the current result unless the key is in `excludeKeys`. -/
def substituteVariables (template : String)
    (vars : List (String × String)) (excludeKeys : List String) : String :=
  vars.foldl
    (fun result kv =>
      if excludeKeys.contains kv.1 then result
      else jsReplaceAll ("$\x7b" ++ kv.1 ++ "\x7d") kv.2 result)
    template

/-- A string with no dollar character contains no `${…}` placeholder and is
not touched by any substitution pass. -/
def noDollar (s : String) : Bool :=
  !(s.toList.contains dollarC)

/-! ### Dynamic JSON values

`JSON.parse` output.  `processPreSubmitHooks` casts the parsed array to
`HookInstance[]` without validating it, so hooks are dynamic values and
every field access is modelled on `JsValue`.  JSON numbers are modelled
as integers (no claim involves fractional numerics). -/

inductive JsValue where
  | null
  | bool (b : Bool)
  | num (n : Int)
  | str (s : String)
  | arr (elems : List JsValue)
  | obj (fields : List (String × JsValue))

/-- JavaScript property access `v[k]`: `none` models `undefined`
(missing field, or access on a non-object primitive, for the property
names the code reads). -/
def getField : JsValue → String → Option JsValue
  | .obj fields, k => fields.lookup k
  | _, _ => none

/-- JavaScript truthiness of a value. -/
def truthy : JsValue → Bool
  | .null => false
  | .bool b => b
  | .num n => n != 0
  | .str s => s != ""
  | .arr _ => true
  | .obj _ => true

/-- `hook.type` when it is a string; `none` when the field is missing or
not a string (in which case every `hook.type === '…'` comparison in the
code is false). -/
def typeField (hook : JsValue) : Option String :=
  match getField hook "type" with
  | some (.str s) => some s
  | _ => none

mutual

/-- JavaScript `String(v)` / template-literal conversion of a value. -/
def jsDisplayV : JsValue → String
  | .null => "null"
  | .bool b => cond b "true" "false"
  | .num n => toString n
  | .str s => s
  | .arr es => String.intercalate "," (jsDisplayArr es)
  | .obj _ => "[object Object]"

/-- Elements of an array under `Array.prototype.toString` (`null` becomes
the empty string inside an array join). -/
def jsDisplayArr : List JsValue → List String
  | [] => []
  | .null :: rest => "" :: jsDisplayArr rest
  | v :: rest => jsDisplayV v :: jsDisplayArr rest

end

/-- Template-literal conversion of a possibly-undefined value. -/
def jsDisplay : Option JsValue → String
  | none => "undefined"
  | some v => jsDisplayV v

/-! ### Path helpers (Node `path`, posix flavour) -/

/-- `path.basename`: last path component, ignoring trailing slashes. -/
def strBasename (p : String) : String :=
  let cs := (p.toList.reverse.dropWhile (fun c => c = slashC)).reverse
  String.mk (cs.reverse.takeWhile (fun c => c != slashC)).reverse

/-- `fileName.substring(0, fileName.lastIndexOf('.'))` when the name
contains a dot, else the name itself (workspaceService.ts lines 348-350). -/
def stripLastDot (s : String) : String :=
  if s.toList.contains dotC then
    String.mk ((s.toList.reverse.dropWhile (fun c => c != dotC)).drop 1).reverse
  else s

/-- `path.dirname`: everything before the last slash; `"."` when there is
no slash. -/
def strDirname (p : String) : String :=
  let cs := p.toList
  if cs.contains slashC then
    match (cs.reverse.dropWhile (fun c => c != slashC)).drop 1 with
    | [] => "/"
    | rest => String.mk rest.reverse
  else "."

/-- `path.resolve(root, p)` for an absolute root, restricted to the
joining behaviour (dot-segment normalisation is not exercised by any
claim). -/
def pathResolve (root p : String) : String :=
  if p.startsWith "/" then p else root ++ "/" ++ p

/-- JavaScript `content.split(' ')[0]`: the characters before the first
space (the whole string when it has no space). -/
def firstSpaceField (s : String) : String :=
  String.mk (s.toList.takeWhile (fun c => c != ' '))

/-! ### The command tokenizer

`substitutedContent.match(/(?:[^\s"']+|"[^"]*"|'[^']*')+/g) || []`:
a token is one or more adjacent atoms, an atom being a run of
non-space non-quote characters, a double-quoted span, or a
single-quoted span.  `\s` is modelled by ASCII whitespace. -/

def isJsSpace (c : Char) : Bool :=
  c = ' ' || c = Char.ofNat 9 || c = Char.ofNat 10 || c = Char.ofNat 11 ||
    c = Char.ofNat 12 || c = Char.ofNat 13

def isWordChar (c : Char) : Bool :=
  !(isJsSpace c) && c != dquoteC && c != squoteC

/-- Match one atom at the front of the list; returns the atom and the
remainder.  A quote with no closing partner matches nothing (the regex
alternative fails). -/
def matchAtom : List Char → Option (List Char × List Char)
  | [] => none
  | c :: rs =>
    if c = dquoteC then
      let inside := rs.takeWhile (fun x => x != dquoteC)
      match rs.drop inside.length with
      | q :: rest2 => some (c :: inside ++ [q], rest2)
      | [] => none
    else if c = squoteC then
      let inside := rs.takeWhile (fun x => x != squoteC)
      match rs.drop inside.length with
      | q :: rest2 => some (c :: inside ++ [q], rest2)
      | [] => none
    else if isWordChar c then
      let run := (c :: rs).takeWhile isWordChar
      some (run, (c :: rs).drop run.length)
    else none

/-- Absorb further adjacent atoms into the current token (the `+` of the
token regex).  Each absorbed atom is nonempty, so fuel equal to the
remaining length suffices. -/
def absorbAtoms : Nat → List Char → List Char → List Char × List Char
  | 0, acc, s => (acc, s)
  | fuel + 1, acc, s =>
    match matchAtom s with
    | none => (acc, s)
    | some (a, rest) => absorbAtoms fuel (acc ++ a) rest

/-- All token matches of the regex, scanning left to right. -/
def tokenizeAux : Nat → List Char → List (List Char)
  | 0, _ => []
  | _ + 1, [] => []
  | fuel + 1, c :: rs =>
    match matchAtom (c :: rs) with
    | some (a, rest) =>
      let tr := absorbAtoms rest.length a rest
      tr.1 :: tokenizeAux fuel tr.2
    | none => tokenizeAux fuel rs

/-- `commandParts`: the list of shell tokens of the substituted command
string (`[]` when the regex matches nothing anywhere). -/
def tokenize (s : String) : List String :=
  (tokenizeAux s.toList.length s.toList).map String.mk

/-! ### The external world of one pipeline run

`processPreSubmitHooks` interacts with the filesystem/JSON parser
(modelled by `ConfigOutcome`), the editor (`ActionOutcome`) and spawned
processes (`ProcOutcome`).  A `StepEnv` fixes, per step index, what the
external world would answer if that step performed its effect. -/

/-- Outcome of `fs.readFile` + `JSON.parse` on `.acmoj/pre-submit.json`. -/
inductive ConfigOutcome where
  | enoent
  | readFailed (msg : String)
  | parseFailed (msg : String)
  | parsed (v : JsValue)

/-- Outcome of `vscode.commands.executeCommand` followed by the
active-editor check: on success, whether
`vscode.window.activeTextEditor.document === document` still holds, and
the active document's current text. -/
inductive ActionOutcome where
  | actionFailed (msg : String)
  | ok (sameDocument : Bool) (docText : String)

/-- Outcome of `spawn(shellPath, ['-c', fullCommandString], …)`: either the
`error` event (the process could not be started) or the `close` event
with the exit code (`none` models a `null` code after a signal kill) and
the accumulated stdout/stderr data. -/
inductive ProcOutcome where
  | spawnFailed (msg : String)
  | exited (code : Option Int) (stdoutData stderrData : String)

structure StepEnv where
  action : Nat → ActionOutcome
  proc : Nat → ProcOutcome

/-- Per-run constants: the workspace folder of the document (`none` when
`vscode.workspace.getWorkspaceFolder` finds none), the document's file
system path, and the shell (`process.env.SHELL` or the platform
default). -/
structure RunCtx where
  workspaceRoot : Option String
  filePath : String
  shellPath : String

/-- Observable external effects of a run, in order: each editor command
invocation and each spawned process (with the full `-c` command string,
the data written to its stdin before closing it — `none` when stdin is
closed with no input — and the hook variables merged into its
environment block on top of `process.env`). -/
inductive Event where
  | actionInvoked (i : Nat) (actionName : String)
  | procSpawned (i : Nat) (shell cmd : String) (stdinData : Option String)
      (hookVars : List (String × String))
deriving DecidableEq

def eventIdx : Event → Nat
  | .actionInvoked i _ => i
  | .procSpawned i _ _ _ _ => i

/-- Mutable locals of the hook loop (workspaceService.ts lines 341-344),
plus the event trace. -/
structure PipeState where
  currentFileContentForHooks : String
  currentInputForNextPipe : Option String
  preSubmitStringAccumulator : List String
  anyOutputSubmitUsed : Bool
  events : List Event
deriving DecidableEq

structure PreSubmitResult where
  content : String
  error : Option String
  outputUsed : Bool
deriving DecidableEq

/-- Result of a whole run: the returned `PreSubmitResult`, or the thrown
error, together with the effect trace. -/
inductive PipelineOutcome where
  | result (r : PreSubmitResult) (trace : List Event)
  | thrown (msg : String) (trace : List Event)
deriving DecidableEq

def outcomeTrace : PipelineOutcome → List Event
  | .result _ t => t
  | .thrown _ t => t

/-! ### Step execution -/

/-- `hookDisplayName` (workspaceService.ts lines 355-363):
`hook.description || (hook.type === 'action' ? hook.name : … : ` the
string `hook #i+1)`.  Computed before the `try` block, so a `TypeError`
raised here (`hook.content.split` / `path.basename` on a non-string)
propagates unwrapped; that is the `.error` case. -/
def hookDisplayNameE (hook : JsValue) (i : Nat) : Except String String :=
  let descr := getField hook "description"
  if (match descr with | some d => truthy d | none => false) then
    .ok (jsDisplay descr)
  else
    match typeField hook with
    | some "action" => .ok (jsDisplay (getField hook "name"))
    | some "command" =>
      match getField hook "content" with
      | some (.str s) => .ok (firstSpaceField s)
      | _ => .error "TypeError: hook.content.split is not a function"
    | some "script" =>
      match getField hook "path" with
      | some (.str s) => .ok (strBasename s)
      | _ =>
        .error
          "TypeError: The \"path\" argument must be of type string"
    | _ => .ok ("hook #" ++ toString (i + 1))

/-- `allHookVariables` (lines 374-380), rebuilt each cycle from the
original file path and the current tracked content, in the object's
insertion order. -/
def allHookVariables (ctx : RunCtx) (content : String) :
    List (String × String) :=
  [("ACMOJ_FILE_PATH", ctx.filePath),
   ("ACMOJ_FILE_NAME", strBasename ctx.filePath),
   ("ACMOJ_FILE_NAME_NO_SUFFIX", stripLastDot (strBasename ctx.filePath)),
   ("ACMOJ_FILE_DIR", strDirname ctx.filePath),
   ("ACMOJ_FILE_CONTENT", content)]

/-- `hook.output || 'ignore'` (line 495): the declared output value when
truthy, else the string `ignore`. -/
def effectiveOutput (hook : JsValue) : JsValue :=
  match getField hook "output" with
  | some v => if truthy v then v else .str "ignore"
  | none => .str "ignore"

/-- `outputMode === m` for a mode string `m`. -/
def outputIs (hook : JsValue) (m : String) : Bool :=
  match effectiveOutput hook with
  | .str s => s == m
  | _ => false

/-- Rendering of the `close` code in the rejection message (`null` when
the process was killed by a signal). -/
def codeDisplay : Option Int → String
  | none => "null"
  | some n => toString n

/-- The rejection message built at lines 483-487. -/
def exitMessage (fullCommandString : String) (code : Option Int)
    (stdoutData stderrData : String) : String :=
  "Command \"" ++ fullCommandString ++ "\" exited with code " ++
    codeDisplay code ++ ".\nStderr: " ++ stderrData ++ "\nStdout: " ++
    stdoutData

/-- The settled value of `processPromise` (lines 445-490): resolve with
the captured streams on exit code 0, reject with the spawn error on the
`error` event, reject with `exitMessage` on any other close code. -/
def processPromiseResult (fullCommandString : String) (o : ProcOutcome) :
    Except String (String × String) :=
  match o with
  | .spawnFailed m => .error m
  | .exited code out err =>
    if code = some 0 then .ok (out, err)
    else .error (exitMessage fullCommandString code out err)

/-- Spawn a process and route its output (lines 444-531).  Returns the
updated state and the thrown message, if any.  The `show` mode only
raises notifications; `ignore` and unrecognised modes fall through with
no state change beyond the stdin reset. -/
def runProc (ctx : RunCtx) (env : StepEnv) (i : Nat) (hook : JsValue)
    (st : PipeState) (vars : List (String × String))
    (fullCommandString : String) : PipeState × Option String :=
  let st1 := { st with
    events := st.events ++
      [.procSpawned i ctx.shellPath fullCommandString
        st.currentInputForNextPipe vars] }
  match processPromiseResult fullCommandString (env.proc i) with
  | .error m => (st1, some m)
  | .ok (stdout, _stderr) =>
    let st2 := { st1 with currentInputForNextPipe := none }
    if outputIs hook "pipe" then
      ({ st2 with currentInputForNextPipe := some stdout }, none)
    else if outputIs hook "submit" then
      ({ st2 with
        preSubmitStringAccumulator :=
          st2.preSubmitStringAccumulator ++ [stdout],
        anyOutputSubmitUsed := true }, none)
    else (st2, none)

/-- The body of the `try` block for one hook (lines 372-532).  A `some`
message is the thrown error before being wrapped by the `catch`. -/
def runHookStep (ctx : RunCtx) (root : String) (env : StepEnv) (i : Nat)
    (hook : JsValue) (st : PipeState) : PipeState × Option String :=
  let vars := allHookVariables ctx st.currentFileContentForHooks
  match typeField hook with
  | some "action" =>
    match getField hook "name" with
    | some (.str nm) =>
      let actionName := substituteVariables nm vars []
      let st1 := { st with events := st.events ++ [.actionInvoked i actionName] }
      match env.action i with
      | .actionFailed m => (st1, some m)
      | .ok sameDocument docText =>
        ({ st1 with
          currentFileContentForHooks :=
            if sameDocument then docText else st1.currentFileContentForHooks,
          currentInputForNextPipe := none }, none)
    | _ => (st, some "TypeError: template.replace is not a function")
  | some "command" =>
    match getField hook "content" with
    | some (.str content) =>
      let substitutedContent :=
        substituteVariables content vars ["ACMOJ_FILE_CONTENT"]
      let commandParts := tokenize substitutedContent
      if commandParts.isEmpty then
        (st, some ("Command hook content is empty or invalid: \"" ++
          content ++ "\""))
      else
        runProc ctx env i hook st vars (String.intercalate " " commandParts)
    | _ => (st, some "TypeError: template.replace is not a function")
  | some "script" =>
    match getField hook "path" with
    | some (.str p) =>
      let scriptPath := pathResolve root p
      let substitutedPath :=
        substituteVariables scriptPath vars ["ACMOJ_FILE_CONTENT"]
      runProc ctx env i hook st vars substitutedPath
    | _ =>
      (st, some "TypeError: The \"path\" argument must be of type string")
  | _ => (st, none)

/-- One iteration of the hook loop: compute the display name (outside the
`try`), run the body, and wrap a thrown body error as
`Hook <name> failed: <msg>` (line 543). -/
def runStep (ctx : RunCtx) (root : String) (env : StepEnv) (i : Nat)
    (hook : JsValue) (st : PipeState) : PipeState × Option String :=
  match hookDisplayNameE hook i with
  | .error e => (st, some e)
  | .ok name =>
    match runHookStep ctx root env i hook st with
    | (st1, none) => (st1, none)
    | (st1, some msg) => (st1, some ("Hook " ++ name ++ " failed: " ++ msg))

/-- The `for` loop over hooks starting at index `i`: stop at the first
thrown error. -/
def runHooks (ctx : RunCtx) (root : String) (env : StepEnv) :
    Nat → List JsValue → PipeState → PipeState × Option String
  | _, [], st => (st, none)
  | i, hook :: rest, st =>
    match runStep ctx root env i hook st with
    | (st1, none) => runHooks ctx root env (i + 1) rest st1
    | (st1, some msg) => (st1, some msg)

/-- The initial `ExecutionContext` of a run (lines 341-344). -/
def initSt (initialFileContent : String) : PipeState :=
  ⟨initialFileContent, none, [], false, []⟩

/-- `processPreSubmitHooks` (lines 278-570).  `config` is the outcome of
reading and parsing `.acmoj/pre-submit.json` inside the workspace
folder; it is only consulted when the document has a workspace folder. -/
def processPreSubmitHooks (ctx : RunCtx) (config : ConfigOutcome)
    (env : StepEnv) (initialFileContent : String) : PipelineOutcome :=
  match ctx.workspaceRoot with
  | none => .result ⟨initialFileContent, none, false⟩ []
  | some root =>
    match config with
    | .enoent => .result ⟨initialFileContent, none, false⟩ []
    | .readFailed m =>
      .result ⟨initialFileContent,
        some ("Error in .acmoj/pre-submit.json: " ++ m), false⟩ []
    | .parseFailed m =>
      .result ⟨initialFileContent,
        some ("Error in .acmoj/pre-submit.json: " ++ m), false⟩ []
    | .parsed v =>
      match v with
      | .arr hooks =>
        if hooks.isEmpty then .result ⟨initialFileContent, none, false⟩ []
        else
          match runHooks ctx root env 0 hooks (initSt initialFileContent) with
          | (st, some msg) => .thrown msg st.events
          | (st, none) =>
            .result
              ⟨if st.anyOutputSubmitUsed then
                  String.join st.preSubmitStringAccumulator
                else st.currentFileContentForHooks,
               none, st.anyOutputSubmitUsed⟩
              st.events
      | _ =>
        .result ⟨initialFileContent,
          some ("Error in .acmoj/pre-submit.json: " ++
            ".acmoj/pre-submit.json should be an array."), false⟩ []

/-! ### Specification-side helpers used to state the claims -/

/-- Valid declared output modes of the `HookInstance` type. -/
def isOutputModeStr (s : String) : Bool :=
  s == "show" || s == "ignore" || s == "pipe" || s == "submit"

/-- An absent field, or one holding a string. -/
def optStrField (h : JsValue) (k : String) : Bool :=
  match getField h k with
  | none => true
  | some (.str _) => true
  | some _ => false

/-- An absent `output` field, or one holding a valid mode string. -/
def optOutputField (h : JsValue) : Bool :=
  match getField h "output" with
  | none => true
  | some (.str s) => isOutputModeStr s
  | some _ => false

/-- Whether a JSON value matches one of the three shapes of the
`HookInstance` union type (workspaceService.ts lines 10-27): the claims
call such values HookStep-shaped. -/
def hookShaped (h : JsValue) : Bool :=
  match typeField h with
  | some "action" =>
    (match getField h "name" with | some (.str _) => true | _ => false) &&
      optStrField h "description"
  | some "command" =>
    (match getField h "content" with | some (.str _) => true | _ => false) &&
      optOutputField h && optStrField h "description"
  | some "script" =>
    (match getField h "path" with | some (.str _) => true | _ => false) &&
      optOutputField h && optStrField h "description"
  | _ => false

/-- A command or script step whose effective output mode is `submit`. -/
def isSubmitProcStep (h : JsValue) : Bool :=
  (typeField h == some "command" || typeField h == some "script") &&
    outputIs h "submit"

/-- A command or script step whose effective output mode is `pipe`. -/
def isPipeProcStep (h : JsValue) : Bool :=
  (typeField h == some "command" || typeField h == some "script") &&
    outputIs h "pipe"

/-- The stdout captured from a process outcome (junk on a spawn failure,
which never resolves). -/
def stdoutOf : ProcOutcome → String
  | .spawnFailed _ => ""
  | .exited _ out _ => out

/-- The stdouts of the submit-mode command/script steps, in step order,
starting at index `i`. -/
def submitStdouts (env : StepEnv) : Nat → List JsValue → List String
  | _, [] => []
  | i, h :: rest =>
    (if isSubmitProcStep h then [stdoutOf (env.proc i)] else []) ++
      submitStdouts env (i + 1) rest

/-- The stdin a process spawned at step `j` must receive according to the
piping discipline: step 0 gets none, step `j+1` gets step `j`'s stdout
exactly when step `j` is a command/script step declared `pipe`. -/
def pipeExpected (hooks : List JsValue) (env : StepEnv) : Nat → Option String
  | 0 => none
  | j + 1 =>
    match hooks.get? j with
    | some h => if isPipeProcStep h then some (stdoutOf (env.proc j)) else none
    | none => none

/-- How one step transforms the tracked file content: only an action step
run against the still-active original document replaces it. -/
def contentStep (env : StepEnv) (i : Nat) (h : JsValue) (c : String) : String :=
  if typeField h = some "action" then
    match env.action i with
    | .ok true docText => docText
    | _ => c
  else c

/-- The tracked file content after the steps from index `i` on. -/
def contentAfter (env : StepEnv) : Nat → List JsValue → String → String
  | _, [], c => c
  | i, h :: rest, c => contentAfter env (i + 1) rest (contentStep env i h c)

/-- Projection of a trace to the spawned command strings (with their step
indices). -/
def spawnCmds (t : List Event) : List (Nat × String) :=
  t.filterMap fun e =>
    match e with
    | .procSpawned i _ cmd _ _ => some (i, cmd)
    | _ => none

/-- Projection of a trace to the stdin data each spawned process
received (with the step indices). -/
def spawnStdins (t : List Event) : List (Nat × Option String) :=
  t.filterMap fun e =>
    match e with
    | .procSpawned i _ _ sd _ => some (i, sd)
    | _ => none

/-- `pat` occurs as a substring of `s`. -/
def strContains (s pat : String) : Prop :=
  ∃ a b, s = a ++ pat ++ b

/-- The hook's `type` field is one of the three recognised tags, so the
dispatch takes one of its branches (otherwise the whole loop body is a
no-op for this hook). -/
def isKnownType (h : JsValue) : Bool :=
  match typeField h with
  | some "action" => true
  | some "command" => true
  | some "script" => true
  | _ => false

/-- The failure kinds enumerated by the failure-policy claim, at step `i`
with tracked content `c`: an editor-action error, an empty/invalid
command string after substitution, a spawn error, or a non-zero process
exit. -/
def stepFailCondition (ctx : RunCtx) (env : StepEnv)
    (i : Nat) (h : JsValue) (c : String) : Prop :=
  (typeField h = some "action" ∧ (∃ nm, getField h "name" = some (.str nm)) ∧
    ∃ m, env.action i = .actionFailed m) ∨
  (typeField h = some "command" ∧
    ∃ s, getField h "content" = some (.str s) ∧
      tokenize (substituteVariables s (allHookVariables ctx c)
        ["ACMOJ_FILE_CONTENT"]) = []) ∨
  (((typeField h = some "command" ∧
      ∃ s, getField h "content" = some (.str s) ∧
        tokenize (substituteVariables s (allHookVariables ctx c)
          ["ACMOJ_FILE_CONTENT"]) ≠ []) ∨
    (typeField h = some "script" ∧ ∃ p, getField h "path" = some (.str p))) ∧
    ((∃ m, env.proc i = .spawnFailed m) ∨
      ∃ code out err, env.proc i = .exited code out err ∧ code ≠ some 0))

/-! ### Concrete fixtures for witnesses and counterexamples -/

def wCtx : RunCtx := ⟨some "/ws", "/ws/sol.cpp", "/bin/sh"⟩

def cmdHook (content : String) : JsValue :=
  .obj [("type", .str "command"), ("content", .str content)]

def cmdHookOut (content mode : String) : JsValue :=
  .obj [("type", .str "command"), ("content", .str content),
        ("output", .str mode)]

def actionHook (nm : String) : JsValue :=
  .obj [("type", .str "action"), ("name", .str nm)]

/-- Both submit steps succeed, with stdouts `A` then `B`. -/
def envAB : StepEnv :=
  ⟨fun _ => .ok true "",
   fun i => if i = 0 then .exited (some 0) "A" "" else .exited (some 0) "B" ""⟩

/-- Step 0 succeeds with stdout `X`; later processes succeed silently. -/
def envPipeX : StepEnv :=
  ⟨fun _ => .ok true "",
   fun i => if i = 0 then .exited (some 0) "X" "" else .exited (some 0) "" ""⟩

/-- Step 0 exits with code 1; a later submit step would print `Z`. -/
def envFail1 : StepEnv :=
  ⟨fun _ => .ok true "",
   fun i => if i = 0 then .exited (some 1) "out1" "err1"
            else .exited (some 0) "Z" ""⟩

/-- The action succeeds and the (still identical) document then reads
`newtext`. -/
def envAction : StepEnv :=
  ⟨fun _ => .ok true "newtext", fun _ => .exited (some 0) "" ""⟩

/-- A context whose document belongs to no workspace folder. -/
def noWsCtx : RunCtx := ⟨none, "/tmp/sol.cpp", "/bin/sh"⟩

/-! ## Supporting lemmas -/

theorem append_ne_empty_left (s t : String) (hs : s.length ≠ 0) :
    s ++ t ≠ "" := by
  intro h
  have h2 := congrArg String.length h
  rw [String.length_append] at h2
  have h3 : ("" : String).length = 0 := rfl
  omega

/-- A subject containing no dollar character is returned unchanged by a
global replacement whose pattern starts with a dollar. -/
theorem jsReplaceAllAux_no_dollar (ps repl : List Char) :
    ∀ (fuel : Nat) (seen rest : List Char), rest.length ≤ fuel →
      rest.contains dollarC = false →
      jsReplaceAllAux dollarC ps repl fuel seen rest = rest := by
  intro fuel
  induction fuel with
  | zero =>
    intro seen rest hlen _
    have : rest = [] := List.eq_nil_of_length_eq_zero (Nat.le_zero.mp hlen)
    subst this
    rfl
  | succ n ih =>
    intro seen rest hlen hnd
    cases rest with
    | nil => rfl
    | cons c rs =>
      have hne : (dollarC == c) = false := by
        by_contra hco
        have : dollarC = c := by
          have := Bool.of_not_eq_false hco
          exact eq_of_beq this
        rw [List.contains_cons] at hnd
        simp [← this] at hnd
      have hpre : (dollarC :: ps).isPrefixOf (c :: rs) = false := by
        simp [List.isPrefixOf, hne]
      have hnd' : rs.contains dollarC = false := by
        rw [List.contains_cons] at hnd
        exact (Bool.or_eq_false_iff.mp hnd).2
      simp only [jsReplaceAllAux, hpre, Bool.false_eq_true, if_false]
      rw [ih (seen ++ [c]) rs (by simpa using Nat.le_of_succ_le_succ hlen) hnd']

/-- A dollar-free string is untouched by one substitution pass. -/
theorem jsReplaceAll_no_dollar (k v s : String) (hs : noDollar s = true) :
    jsReplaceAll ("$\x7b" ++ k ++ "\x7d") v s = s := by
  have hdata : ("$\x7b" ++ k ++ "\x7d").toList =
      dollarC :: (lbraceC :: k.toList ++ [rbraceC]) := by
    show ("$\x7b" ++ k ++ "\x7d").data = _
    rw [String.data_append, String.data_append]
    have h1 : ("$\x7b" : String).data = [dollarC, lbraceC] := by decide
    have h2 : ("\x7d" : String).data = [rbraceC] := by decide
    rw [h1, h2]
    show _ = dollarC :: (lbraceC :: k.data ++ [rbraceC])
    simp
  have hcont : s.toList.contains dollarC = false := by
    unfold noDollar at hs
    cases hc : s.toList.contains dollarC
    · rfl
    · rw [hc] at hs
      exact absurd hs (by decide)
  unfold jsReplaceAll
  rw [hdata]
  show String.mk (jsReplaceAllAux dollarC (lbraceC :: k.toList ++ [rbraceC])
    v.toList s.toList.length [] s.toList) = s
  rw [jsReplaceAllAux_no_dollar _ _ s.toList.length [] s.toList
    (Nat.le_refl _) hcont]
  rfl

/-- A dollar-free template is returned unchanged by `substituteVariables`
(there is no placeholder to replace). -/
theorem substituteVariables_no_dollar (t : String)
    (vars : List (String × String)) (excl : List String)
    (ht : noDollar t = true) : substituteVariables t vars excl = t := by
  unfold substituteVariables
  induction vars with
  | nil => rfl
  | cons kv rest ih =>
    rw [List.foldl_cons]
    have hstep :
        (if excl.contains kv.1 then t
         else jsReplaceAll ("$\x7b" ++ kv.1 ++ "\x7d") kv.2 t) = t := by
      split
      · rfl
      · exact jsReplaceAll_no_dollar kv.1 kv.2 t ht
    rw [hstep]
    exact ih

theorem not_strContains_of_short (s pat : String)
    (h : s.length < pat.length) : ¬ strContains s pat := by
  rintro ⟨a, b, hab⟩
  have hl := congrArg String.length hab
  rw [String.length_append, String.length_append] at hl
  omega

theorem exitMessage_contains_stdout (cmd : String) (code : Option Int)
    (out err : String) : strContains (exitMessage cmd code out err) out := by
  refine ⟨"Command \"" ++ cmd ++ "\" exited with code " ++ codeDisplay code ++
    ".\nStderr: " ++ err ++ "\nStdout: ", "", ?_⟩
  unfold exitMessage
  rw [String.append_empty]

theorem exitMessage_contains_stderr (cmd : String) (code : Option Int)
    (out err : String) : strContains (exitMessage cmd code out err) err := by
  refine ⟨"Command \"" ++ cmd ++ "\" exited with code " ++ codeDisplay code ++
    ".\nStderr: ", "\nStdout: " ++ out, ?_⟩
  unfold exitMessage
  simp only [String.append_assoc]

theorem exitMessage_contains_tag (cmd : String) (code : Option Int)
    (out err : String) :
    strContains (exitMessage cmd code out err) "exited with code " := by
  refine ⟨"Command \"" ++ cmd ++ "\" ",
    codeDisplay code ++ ".\nStderr: " ++ err ++ "\nStdout: " ++ out, ?_⟩
  unfold exitMessage
  have hsplit : ("\" exited with code " : String) =
      "\" " ++ "exited with code " := by decide
  rw [show ("Command \"" ++ cmd ++ "\" exited with code " : String) =
      "Command \"" ++ cmd ++ ("\" " ++ "exited with code ") from by
    rw [← hsplit, String.append_assoc]]
  simp only [String.append_assoc]

/-! ### Characterisation of one step -/

theorem processPromiseResult_ok_elim (cmd : String) (o : ProcOutcome)
    (res : String × String) (h : processPromiseResult cmd o = .ok res) :
    o = .exited (some 0) res.1 res.2 := by
  cases o with
  | spawnFailed m =>
    simp only [processPromiseResult] at h
    exact Except.noConfusion h
  | exited code out err =>
    simp only [processPromiseResult] at h
    split at h
    · next hcode =>
      injection h with h1
      rw [← h1, hcode]
    · exact Except.noConfusion h

theorem outputIs_excl {hk : JsValue} {a b : String}
    (ha : outputIs hk a = true) (hab : a ≠ b) : outputIs hk b = false := by
  unfold outputIs at ha ⊢
  split at ha
  · next s heff =>
    have hsa : s = a := eq_of_beq ha
    subst hsa
    exact beq_eq_false_iff_ne.mpr hab
  · exact absurd ha (by decide)

theorem runProc_events (ctx : RunCtx) (env : StepEnv) (i : Nat)
    (hook : JsValue) (st : PipeState) (vars : List (String × String))
    (cmd : String) :
    (runProc ctx env i hook st vars cmd).1.events =
      st.events ++ [.procSpawned i ctx.shellPath cmd
        st.currentInputForNextPipe vars] := by
  unfold runProc
  split
  · rfl
  · split_ifs <;> rfl

theorem runProc_ok (ctx : RunCtx) (env : StepEnv) (i : Nat) (hook : JsValue)
    (st : PipeState) (vars : List (String × String)) (cmd : String)
    (st1 : PipeState) (hs : runProc ctx env i hook st vars cmd = (st1, none)) :
    st1.currentFileContentForHooks = st.currentFileContentForHooks ∧
    st1.preSubmitStringAccumulator = st.preSubmitStringAccumulator ++
      (if outputIs hook "submit" then [stdoutOf (env.proc i)] else []) ∧
    st1.anyOutputSubmitUsed =
      (st.anyOutputSubmitUsed || outputIs hook "submit") ∧
    st1.currentInputForNextPipe =
      (if outputIs hook "pipe" then some (stdoutOf (env.proc i))
       else none) := by
  unfold runProc at hs
  split at hs
  · exact absurd (congrArg Prod.snd hs) (by simp)
  · next stdout _stderr heq =>
    have ho := processPromiseResult_ok_elim _ _ _ heq
    have hstd : stdoutOf (env.proc i) = stdout := by rw [ho]; rfl
    split at hs
    · next hpipe =>
      have hsub : outputIs hook "submit" = false :=
        outputIs_excl hpipe (by decide)
      injection hs with h1 _
      subst h1
      exact ⟨rfl, by simp [hsub], by simp [hsub], by simp [hpipe, hstd]⟩
    · next hnpipe =>
      have hnpipe' : outputIs hook "pipe" = false := by
        cases hx : outputIs hook "pipe"
        · rfl
        · exact absurd hx hnpipe
      split at hs
      · next hsubmit =>
        injection hs with h1 _
        subst h1
        exact ⟨rfl, by simp [hsubmit, hstd], by simp [hsubmit],
          by simp [hnpipe']⟩
      · next hnsubmit =>
        have hnsubmit' : outputIs hook "submit" = false := by
          cases hx : outputIs hook "submit"
          · rfl
          · exact absurd hx hnsubmit
        injection hs with h1 _
        subst h1
        exact ⟨rfl, by simp [hnsubmit'], by simp [hnsubmit'],
          by simp [hnpipe']⟩

theorem isSubmitProcStep_proc {hk : JsValue}
    (h : typeField hk = some "command" ∨ typeField hk = some "script") :
    isSubmitProcStep hk = outputIs hk "submit" := by
  unfold isSubmitProcStep
  rcases h with h | h <;> rw [h] <;> simp

theorem isPipeProcStep_proc {hk : JsValue}
    (h : typeField hk = some "command" ∨ typeField hk = some "script") :
    isPipeProcStep hk = outputIs hk "pipe" := by
  unfold isPipeProcStep
  rcases h with h | h <;> rw [h] <;> simp

theorem isSubmitProcStep_not_proc {hk : JsValue}
    (hc : typeField hk ≠ some "command") (hsc : typeField hk ≠ some "script") :
    isSubmitProcStep hk = false := by
  unfold isSubmitProcStep
  have h1 : (typeField hk == some "command") = false :=
    beq_eq_false_iff_ne.mpr hc
  have h2 : (typeField hk == some "script") = false :=
    beq_eq_false_iff_ne.mpr hsc
  rw [h1, h2]
  rfl

theorem isPipeProcStep_not_proc {hk : JsValue}
    (hc : typeField hk ≠ some "command") (hsc : typeField hk ≠ some "script") :
    isPipeProcStep hk = false := by
  unfold isPipeProcStep
  have h1 : (typeField hk == some "command") = false :=
    beq_eq_false_iff_ne.mpr hc
  have h2 : (typeField hk == some "script") = false :=
    beq_eq_false_iff_ne.mpr hsc
  rw [h1, h2]
  rfl

theorem isKnownType_action {hk : JsValue} (h : typeField hk = some "action") :
    isKnownType hk = true := by
  unfold isKnownType
  rw [h]
  decide

theorem isKnownType_command {hk : JsValue}
    (h : typeField hk = some "command") : isKnownType hk = true := by
  unfold isKnownType
  rw [h]
  decide

theorem isKnownType_script {hk : JsValue} (h : typeField hk = some "script") :
    isKnownType hk = true := by
  unfold isKnownType
  rw [h]
  decide

theorem isKnownType_false {hk : JsValue}
    (ha : typeField hk ≠ some "action") (hc : typeField hk ≠ some "command")
    (hsc : typeField hk ≠ some "script") : isKnownType hk = false := by
  unfold isKnownType
  split
  · next heq => exact absurd heq ha
  · next heq => exact absurd heq hc
  · next heq => exact absurd heq hsc
  · rfl

/-- Success of one loop body: how the four state components evolve.  The
tracked file content follows `contentStep`; the accumulator grows by
exactly the stdout of a submit-mode command/script; the submit flag is
or-ed with the presence of such a step; the pending stdin is the stdout
of a pipe-mode command/script, cleared by any other recognised step, and
untouched by an unrecognised one. -/
theorem runHookStep_ok (ctx : RunCtx) (root : String) (env : StepEnv)
    (i : Nat) (hook : JsValue) (st st1 : PipeState)
    (hs : runHookStep ctx root env i hook st = (st1, none)) :
    st1.currentFileContentForHooks =
      contentStep env i hook st.currentFileContentForHooks ∧
    st1.preSubmitStringAccumulator = st.preSubmitStringAccumulator ++
      (if isSubmitProcStep hook then [stdoutOf (env.proc i)] else []) ∧
    st1.anyOutputSubmitUsed =
      (st.anyOutputSubmitUsed || isSubmitProcStep hook) ∧
    st1.currentInputForNextPipe =
      (if isPipeProcStep hook then some (stdoutOf (env.proc i))
       else if isKnownType hook then none
       else st.currentInputForNextPipe) := by
  unfold runHookStep at hs
  split at hs
  · -- action
    next htf =>
    have hsub : isSubmitProcStep hook = false :=
      isSubmitProcStep_not_proc (by simp [htf]) (by simp [htf])
    have hpipe : isPipeProcStep hook = false :=
      isPipeProcStep_not_proc (by simp [htf]) (by simp [htf])
    have hknown : isKnownType hook = true := isKnownType_action htf
    have hcontent : ∀ c, contentStep env i hook c =
        (match env.action i with
         | .ok true docText => docText
         | _ => c) := by
      intro c
      unfold contentStep
      rw [if_pos htf]
    split at hs
    · -- name is a string
      split at hs
      · -- actionFailed: contradiction
        exact absurd (congrArg Prod.snd hs) (by simp)
      · next sameDocument docText hact =>
        injection hs with h1 _
        subst h1
        refine ⟨?_, by simp [hsub], by simp [hsub],
          by simp [hpipe, hknown]⟩
        rw [hcontent, hact]
        cases sameDocument <;> rfl
    · exact absurd (congrArg Prod.snd hs) (by simp)
  · -- command
    next htf =>
    have hor : typeField hook = some "command" ∨ typeField hook = some "script" :=
      Or.inl htf
    have hcontent : ∀ c, contentStep env i hook c = c := by
      intro c
      unfold contentStep
      rw [if_neg (by simp [htf])]
    split at hs
    · -- content is a string
      simp only [] at hs
      split at hs
      · exact absurd (congrArg Prod.snd hs) (by simp)
      · -- runProc
        have hrp := runProc_ok _ _ _ _ _ _ _ _ hs
        refine ⟨by rw [hcontent]; exact hrp.1, ?_, ?_, ?_⟩
        · rw [isSubmitProcStep_proc hor]
          exact hrp.2.1
        · rw [isSubmitProcStep_proc hor]
          exact hrp.2.2.1
        · rw [isPipeProcStep_proc hor, isKnownType_command htf]
          rw [hrp.2.2.2]
          cases hx : outputIs hook "pipe" <;> simp
    · exact absurd (congrArg Prod.snd hs) (by simp)
  · -- script
    next htf =>
    have hor : typeField hook = some "command" ∨ typeField hook = some "script" :=
      Or.inr htf
    have hcontent : ∀ c, contentStep env i hook c = c := by
      intro c
      unfold contentStep
      rw [if_neg (by simp [htf])]
    split at hs
    · have hrp := runProc_ok _ _ _ _ _ _ _ _ hs
      refine ⟨by rw [hcontent]; exact hrp.1, ?_, ?_, ?_⟩
      · rw [isSubmitProcStep_proc hor]
        exact hrp.2.1
      · rw [isSubmitProcStep_proc hor]
        exact hrp.2.2.1
      · rw [isPipeProcStep_proc hor, isKnownType_script htf]
        rw [hrp.2.2.2]
        cases hx : outputIs hook "pipe" <;> simp
    · exact absurd (congrArg Prod.snd hs) (by simp)
  · -- unrecognised type: no-op
    next hna hnc hns =>
    have hna' : typeField hook ≠ some "action" := fun h => hna h
    have hnc' : typeField hook ≠ some "command" := fun h => hnc h
    have hns' : typeField hook ≠ some "script" := fun h => hns h
    have hsub : isSubmitProcStep hook = false :=
      isSubmitProcStep_not_proc hnc' hns'
    have hpipe : isPipeProcStep hook = false :=
      isPipeProcStep_not_proc hnc' hns'
    have hknown : isKnownType hook = false := isKnownType_false hna' hnc' hns'
    have hcontent : ∀ c, contentStep env i hook c = c := by
      intro c
      unfold contentStep
      rw [if_neg hna']
    injection hs with h1 _
    subst h1
    exact ⟨(hcontent _).symm, by simp [hsub], by simp [hsub],
      by simp [hpipe, hknown]⟩

/-- Events appended by one loop body, successful or not: they all carry
the step's own index, and any spawned process received the pending stdin
of the state the step started from, with the hook variables built from
that state's tracked content. -/
theorem runHookStep_events (ctx : RunCtx) (root : String) (env : StepEnv)
    (i : Nat) (hook : JsValue) (st : PipeState)
    (p : PipeState × Option String)
    (hs : runHookStep ctx root env i hook st = p) :
    ∃ new, p.1.events = st.events ++ new ∧
      (∀ e ∈ new, eventIdx e = i) ∧
      (∀ j sh cmd sd vars, Event.procSpawned j sh cmd sd vars ∈ new →
        j = i ∧ sd = st.currentInputForNextPipe ∧
        vars = allHookVariables ctx st.currentFileContentForHooks) := by
  have hnil : ∃ new, st.events = st.events ++ new ∧
      (∀ e ∈ new, eventIdx e = i) ∧
      (∀ j sh cmd sd vars, Event.procSpawned j sh cmd sd vars ∈ new →
        j = i ∧ sd = st.currentInputForNextPipe ∧
        vars = allHookVariables ctx st.currentFileContentForHooks) := by
    refine ⟨[], by simp, ?_, ?_⟩
    · intro e he
      exact absurd he (List.not_mem_nil e)
    · intro j sh cmd sd vars hmem
      exact absurd hmem (List.not_mem_nil _)
  have hspawn : ∀ (st' : PipeState) (vars : List (String × String))
      (cmd : String) (err : Option String),
      runProc ctx env i hook st vars cmd = (st', err) →
      vars = allHookVariables ctx st.currentFileContentForHooks →
      ∃ new, st'.events = st.events ++ new ∧
        (∀ e ∈ new, eventIdx e = i) ∧
        (∀ j sh cmd' sd vars', Event.procSpawned j sh cmd' sd vars' ∈ new →
          j = i ∧ sd = st.currentInputForNextPipe ∧
          vars' = allHookVariables ctx st.currentFileContentForHooks) := by
    intro st' vars cmd err hrp hvars
    refine ⟨[.procSpawned i ctx.shellPath cmd st.currentInputForNextPipe vars],
      ?_, ?_, ?_⟩
    · have := runProc_events ctx env i hook st vars cmd
      rw [hrp] at this
      exact this
    · intro e he
      rw [List.mem_singleton] at he
      subst he
      rfl
    · intro j sh cmd' sd vars' hmem
      rw [List.mem_singleton] at hmem
      injection hmem with h1 _ _ h4 h5
      exact ⟨h1, h4 ▸ rfl, by rw [h5, hvars]⟩
  unfold runHookStep at hs
  split at hs
  · -- action
    split at hs
    · -- name is a string
      next nm hnm =>
      split at hs
      · -- actionFailed
        rw [← hs]
        refine ⟨[.actionInvoked i (substituteVariables nm
          (allHookVariables ctx st.currentFileContentForHooks) [])],
          rfl, ?_, ?_⟩
        · intro e he
          rw [List.mem_singleton] at he
          subst he
          rfl
        · intro j sh cmd sd vars hmem
          rw [List.mem_singleton] at hmem
          exact Event.noConfusion hmem
      · -- action ok
        rw [← hs]
        refine ⟨[.actionInvoked i (substituteVariables nm
          (allHookVariables ctx st.currentFileContentForHooks) [])],
          rfl, ?_, ?_⟩
        · intro e he
          rw [List.mem_singleton] at he
          subst he
          rfl
        · intro j sh cmd sd vars hmem
          rw [List.mem_singleton] at hmem
          exact Event.noConfusion hmem
    · rw [← hs]
      exact hnil
  · -- command
    split at hs
    · simp only [] at hs
      split at hs
      · rw [← hs]
        exact hnil
      · exact hspawn _ _ _ _ hs rfl
    · rw [← hs]
      exact hnil
  · -- script
    split at hs
    · exact hspawn _ _ _ _ hs rfl
    · rw [← hs]
      exact hnil
  · -- unrecognised type
    rw [← hs]
    exact hnil

/-- A successful loop iteration is a successful `try` body (the display
name cannot have thrown, and the wrapper only rewrites thrown
messages). -/
theorem runStep_ok_elim (ctx : RunCtx) (root : String) (env : StepEnv)
    (i : Nat) (hook : JsValue) (st st1 : PipeState)
    (hs : runStep ctx root env i hook st = (st1, none)) :
    runHookStep ctx root env i hook st = (st1, none) := by
  unfold runStep at hs
  split at hs
  · exact absurd (congrArg Prod.snd hs) (by simp)
  · split at hs
    · next heq => rw [heq]; exact congrArg (fun st2 => (st2, none)) (congrArg Prod.fst hs)
    · exact absurd (congrArg Prod.snd hs) (by simp)

/-- `runHookStep_events`, lifted to the whole loop iteration. -/
theorem runStep_events (ctx : RunCtx) (root : String) (env : StepEnv)
    (i : Nat) (hook : JsValue) (st : PipeState)
    (p : PipeState × Option String)
    (hs : runStep ctx root env i hook st = p) :
    ∃ new, p.1.events = st.events ++ new ∧
      (∀ e ∈ new, eventIdx e = i) ∧
      (∀ j sh cmd sd vars, Event.procSpawned j sh cmd sd vars ∈ new →
        j = i ∧ sd = st.currentInputForNextPipe ∧
        vars = allHookVariables ctx st.currentFileContentForHooks) := by
  unfold runStep at hs
  split at hs
  · rw [← hs]
    refine ⟨[], by simp, ?_, ?_⟩
    · intro e he
      exact absurd he (List.not_mem_nil e)
    · intro j sh cmd sd vars hmem
      exact absurd hmem (List.not_mem_nil _)
  · split at hs
    · next heq =>
      rw [← hs]
      exact runHookStep_events ctx root env i hook st _ heq
    · next st2 msg heq =>
      rw [← hs]
      exact runHookStep_events ctx root env i hook st (st2, msg) heq

/-- Running a prefix successfully and then the rest is running the
concatenation. -/
theorem runHooks_append (ctx : RunCtx) (root : String) (env : StepEnv) :
    ∀ (pre : List JsValue) (i : Nat) (st st1 : PipeState)
      (rest : List JsValue),
      runHooks ctx root env i pre st = (st1, none) →
      runHooks ctx root env i (pre ++ rest) st =
        runHooks ctx root env (i + pre.length) rest st1 := by
  intro pre
  induction pre with
  | nil =>
    intro i st st1 rest hs
    simp only [runHooks] at hs
    injection hs with h1 _
    subst h1
    simp
  | cons hk pre ih =>
    intro i st st1 rest hs
    rw [List.cons_append]
    simp only [runHooks] at hs ⊢
    cases hrs : runStep ctx root env i hk st with
    | mk sta err =>
      rw [hrs] at hs
      cases err with
      | some m => exact absurd (congrArg Prod.snd hs) (by simp)
      | none =>
        have hs' : runHooks ctx root env (i + 1) pre sta = (st1, none) := hs
        show runHooks ctx root env (i + 1) (pre ++ rest) sta =
          runHooks ctx root env (i + (hk :: pre).length) rest st1
        rw [ih (i + 1) sta st1 rest hs']
        have harith : i + 1 + pre.length = i + (hk :: pre).length := by
          simp only [List.length_cons]
          omega
        rw [harith]

/-- Over a successful run, the tracked file content is exactly the fold
of `contentStep`: it changes only at action steps, to the re-read
document text when the document is still the original. -/
theorem runHooks_content (ctx : RunCtx) (root : String) (env : StepEnv) :
    ∀ (hooks : List JsValue) (i : Nat) (st st1 : PipeState),
      runHooks ctx root env i hooks st = (st1, none) →
      st1.currentFileContentForHooks =
        contentAfter env i hooks st.currentFileContentForHooks := by
  intro hooks
  induction hooks with
  | nil =>
    intro i st st1 hs
    simp only [runHooks] at hs
    injection hs with h1 _
    subst h1
    rfl
  | cons hk rest ih =>
    intro i st st1 hs
    simp only [runHooks] at hs
    cases hrs : runStep ctx root env i hk st with
    | mk sta err =>
      rw [hrs] at hs
      cases err with
      | some m => exact absurd (congrArg Prod.snd hs) (by simp)
      | none =>
        have hs' : runHooks ctx root env (i + 1) rest sta = (st1, none) := hs
        have hstep := runHookStep_ok ctx root env i hk st sta
          (runStep_ok_elim ctx root env i hk st sta hrs)
        show st1.currentFileContentForHooks =
          contentAfter env (i + 1) rest
            (contentStep env i hk st.currentFileContentForHooks)
        rw [← hstep.1]
        exact ih (i + 1) sta st1 hs' 

/-- Over a successful run, the submit accumulator grows by exactly the
stdouts of the submit-mode command/script steps, in step order, and the
submit flag records whether there was at least one such step. -/
theorem runHooks_submit (ctx : RunCtx) (root : String) (env : StepEnv) :
    ∀ (hooks : List JsValue) (i : Nat) (st st1 : PipeState),
      runHooks ctx root env i hooks st = (st1, none) →
      st1.preSubmitStringAccumulator =
        st.preSubmitStringAccumulator ++ submitStdouts env i hooks ∧
      st1.anyOutputSubmitUsed =
        (st.anyOutputSubmitUsed || hooks.any isSubmitProcStep) := by
  intro hooks
  induction hooks with
  | nil =>
    intro i st st1 hs
    simp only [runHooks] at hs
    injection hs with h1 _
    subst h1
    exact ⟨by simp [submitStdouts], by simp⟩
  | cons hk rest ih =>
    intro i st st1 hs
    simp only [runHooks] at hs
    cases hrs : runStep ctx root env i hk st with
    | mk sta err =>
      rw [hrs] at hs
      cases err with
      | some m => exact absurd (congrArg Prod.snd hs) (by simp)
      | none =>
        have hs' : runHooks ctx root env (i + 1) rest sta = (st1, none) := hs
        have hstep := runHookStep_ok ctx root env i hk st sta
          (runStep_ok_elim ctx root env i hk st sta hrs)
        have hrest := ih (i + 1) sta st1 hs' 
        constructor
        · rw [hrest.1, hstep.2.1]
          show _ = st.preSubmitStringAccumulator ++
            ((if isSubmitProcStep hk then [stdoutOf (env.proc i)] else []) ++
              submitStdouts env (i + 1) rest)
          rw [List.append_assoc]
        · rw [hrest.2, hstep.2.2.1]
          show _ = (st.anyOutputSubmitUsed ||
            (isSubmitProcStep hk || rest.any isSubmitProcStep))
          rw [Bool.or_assoc]

theorem spawnCmds_append (t1 t2 : List Event) :
    spawnCmds (t1 ++ t2) = spawnCmds t1 ++ spawnCmds t2 :=
  List.filterMap_append t1 t2 _

theorem spawnStdins_append (t1 t2 : List Event) :
    spawnStdins (t1 ++ t2) = spawnStdins t1 ++ spawnStdins t2 :=
  List.filterMap_append t1 t2 _

/-- The hook variables always bind `ACMOJ_FILE_CONTENT` (to the tracked
content). -/
theorem allHookVariables_lookup_content (ctx : RunCtx) (c : String) :
    (allHookVariables ctx c).lookup "ACMOJ_FILE_CONTENT" = some c := rfl

/-- `ACMOJ_FILE_CONTENT` is excluded when substituting into a command or
script string, so the substituted string does not depend on the tracked
content. -/
theorem substituteVariables_content_indep (t : String) (ctx : RunCtx)
    (c1 c2 : String) :
    substituteVariables t (allHookVariables ctx c1) ["ACMOJ_FILE_CONTENT"] =
    substituteVariables t (allHookVariables ctx c2) ["ACMOJ_FILE_CONTENT"] :=
  rfl

/-- A HookStep-shaped value has a recognised `type` tag. -/
theorem hookShaped_known {hk : JsValue} (h : hookShaped hk = true) :
    isKnownType hk = true := by
  unfold hookShaped at h
  split at h
  · next htf => exact isKnownType_action htf
  · next htf => exact isKnownType_command htf
  · next htf => exact isKnownType_script htf
  · exact absurd h (by decide)

/-- The thrown component of `runProc` is a function of the command string
and the process outcome alone. -/
theorem runProc_snd (ctx : RunCtx) (env : StepEnv) (i : Nat)
    (hook : JsValue) (st : PipeState) (vars : List (String × String))
    (cmd : String) :
    (runProc ctx env i hook st vars cmd).2 =
      (match processPromiseResult cmd (env.proc i) with
       | .error m => some m
       | .ok _ => none) := by
  unfold runProc
  split
  · next heq => rw [heq]
  · next heq =>
    rw [heq]
    split_ifs <;> rfl

/-- A spawn failure or non-zero exit makes `runProc` record the spawn
event and return a thrown message, leaving the rest of the state
unchanged. -/
theorem runProc_fail (ctx : RunCtx) (env : StepEnv) (i : Nat)
    (hook : JsValue) (st : PipeState) (vars : List (String × String))
    (cmd : String)
    (hf : (∃ m, env.proc i = .spawnFailed m) ∨
      ∃ code out err, env.proc i = .exited code out err ∧ code ≠ some 0) :
    ∃ msg, runProc ctx env i hook st vars cmd =
      ({ st with events := st.events ++
          [.procSpawned i ctx.shellPath cmd st.currentInputForNextPipe vars] },
        some msg) := by
  have herr : ∃ msg,
      processPromiseResult cmd (env.proc i) = .error msg := by
    rcases hf with ⟨m, hm⟩ | ⟨code, out, err, hc, hne⟩
    · exact ⟨m, by rw [hm]; rfl⟩
    · refine ⟨exitMessage cmd code out err, ?_⟩
      rw [hc]
      simp only [processPromiseResult]
      rw [if_neg hne]
  obtain ⟨msg, hmsg⟩ := herr
  refine ⟨msg, ?_⟩
  unfold runProc
  rw [hmsg]

theorem pipeExpected_succ (hooks : List JsValue) (env : StepEnv) (j : Nat) :
    pipeExpected hooks env (j + 1) =
      (match hooks.get? j with
       | some h =>
         if isPipeProcStep h then some (stdoutOf (env.proc j)) else none
       | none => none) := rfl

/-- Piping invariant: over HookStep-shaped hooks, every spawned process's
stdin is `pipeExpected` at its index — step 0 and steps whose immediate
predecessor is not a pipe-mode command/script run with stdin closed, and
the successor of a pipe step receives exactly that step's stdout. -/
theorem runHooks_stdin_inv (ctx : RunCtx) (root : String) (env : StepEnv)
    (full : List JsValue) (hsh : ∀ h ∈ full, hookShaped h = true) :
    ∀ (suffix : List JsValue) (n : Nat) (st : PipeState),
      full.drop n = suffix →
      st.currentInputForNextPipe = pipeExpected full env n →
      (∀ j sh cmd sd vars,
        Event.procSpawned j sh cmd sd vars ∈ st.events →
        sd = pipeExpected full env j) →
      ∀ j sh cmd sd vars,
        Event.procSpawned j sh cmd sd vars ∈
          (runHooks ctx root env n suffix st).1.events →
        sd = pipeExpected full env j := by
  intro suffix
  induction suffix with
  | nil =>
    intro n st _ _ hev
    exact hev
  | cons hk rest ih =>
    intro n st hdrop hpend hev
    have hmem : hk ∈ full :=
      List.drop_subset n full (hdrop ▸ List.mem_cons_self hk rest)
    have hget : full.get? n = some hk := by
      have h0 := List.get?_drop full n 0
      rw [hdrop] at h0
      simpa using h0.symm
    have hdrop1 : full.drop (n + 1) = rest := by
      have h2 := congrArg (List.drop 1) hdrop
      rw [List.drop_drop] at h2
      simpa using h2
    cases hrs : runStep ctx root env n hk st with
    | mk sta err =>
      have hstev : ∀ j sh cmd sd vars,
          Event.procSpawned j sh cmd sd vars ∈ sta.events →
          sd = pipeExpected full env j := by
        obtain ⟨new, hnewev, _, hnewspawn⟩ :=
          runStep_events ctx root env n hk st (sta, err) hrs
        have hnewev' : sta.events = st.events ++ new := hnewev
        intro j sh cmd sd vars hmem2
        rw [hnewev'] at hmem2
        rcases List.mem_append.mp hmem2 with hold | hnew2
        · exact hev _ _ _ _ _ hold
        · obtain ⟨hj, hsd, _⟩ := hnewspawn _ _ _ _ _ hnew2
          subst hj
          rw [hsd, hpend]
      cases err with
      | some m =>
        intro j sh cmd sd vars hmem2
        have hred : (runHooks ctx root env n (hk :: rest) st).1.events =
            sta.events := by
          simp only [runHooks]
          rw [hrs]
        rw [hred] at hmem2
        exact hstev _ _ _ _ _ hmem2
      | none =>
        have hpend1 : sta.currentInputForNextPipe =
            pipeExpected full env (n + 1) := by
          have hok := runHookStep_ok ctx root env n hk st sta
            (runStep_ok_elim _ _ _ _ _ _ _ hrs)
          rw [hok.2.2.2]
          have hkn : isKnownType hk = true := hookShaped_known (hsh hk hmem)
          rw [hkn, pipeExpected_succ, hget]
          cases hx : isPipeProcStep hk <;> simp [hx]
        have hred : (runHooks ctx root env n (hk :: rest) st) =
            runHooks ctx root env (n + 1) rest sta := by
          simp only [runHooks]
          rw [hrs]
        rw [hred]
        exact ih (n + 1) sta hdrop1 hpend1 hstev

/-- Any of the enumerated failure kinds makes the loop iteration throw a
message of the form `Hook <display name> failed: …`, without touching
the submit accumulator. -/
theorem runStep_fail (ctx : RunCtx) (root : String) (env : StepEnv)
    (i : Nat) (hook : JsValue) (st : PipeState)
    (hfail : stepFailCondition ctx env i hook
      st.currentFileContentForHooks) :
    ∃ nm rest st2, hookDisplayNameE hook i = .ok nm ∧
      runStep ctx root env i hook st =
        (st2, some ("Hook " ++ nm ++ " failed: " ++ rest)) ∧
      st2.preSubmitStringAccumulator = st.preSubmitStringAccumulator := by
  rcases hfail with ⟨htf, ⟨nm0, hname⟩, ⟨m, hact⟩⟩ |
    ⟨htf, s, hcontent, htok⟩ | ⟨hcs, hproc⟩
  · -- action error
    have hdisp : ∃ nm, hookDisplayNameE hook i = .ok nm := by
      unfold hookDisplayNameE
      rw [htf]
      simp only []
      split
      · exact ⟨_, rfl⟩
      · exact ⟨_, rfl⟩
    obtain ⟨nm, hnm⟩ := hdisp
    have hbody : runHookStep ctx root env i hook st =
        ({ st with events := st.events ++ [.actionInvoked i
            (substituteVariables nm0 (allHookVariables ctx
              st.currentFileContentForHooks) [])] }, some m) := by
      unfold runHookStep
      rw [htf, hname, hact]
      rfl
    refine ⟨nm, m, { st with events := st.events ++ [.actionInvoked i
      (substituteVariables nm0 (allHookVariables ctx
        st.currentFileContentForHooks) [])] }, hnm, ?_, rfl⟩
    unfold runStep
    rw [hnm, hbody]
  · -- empty command string after substitution
    have hdisp : ∃ nm, hookDisplayNameE hook i = .ok nm := by
      unfold hookDisplayNameE
      rw [htf, hcontent]
      simp only []
      split
      · exact ⟨_, rfl⟩
      · exact ⟨_, rfl⟩
    obtain ⟨nm, hnm⟩ := hdisp
    have hemp : (tokenize (substituteVariables s (allHookVariables ctx
        st.currentFileContentForHooks) ["ACMOJ_FILE_CONTENT"])).isEmpty
        = true := by
      rw [htok]
      rfl
    have hbody : runHookStep ctx root env i hook st =
        (st, some ("Command hook content is empty or invalid: \"" ++ s ++
          "\"")) := by
      unfold runHookStep
      rw [htf, hcontent]
      simp only []
      rw [hemp]
      rfl
    refine ⟨nm, "Command hook content is empty or invalid: \"" ++ s ++
      "\"", st, hnm, ?_, rfl⟩
    unfold runStep
    rw [hnm, hbody]
  · -- spawn failure or non-zero exit
    rcases hcs with ⟨htf, s, hcontent, htok⟩ | ⟨htf, p, hpath⟩
    · -- command hook
      have hdisp : ∃ nm, hookDisplayNameE hook i = .ok nm := by
        unfold hookDisplayNameE
        rw [htf, hcontent]
        simp only []
        split
        · exact ⟨_, rfl⟩
        · exact ⟨_, rfl⟩
      obtain ⟨nm, hnm⟩ := hdisp
      have hemp : (tokenize (substituteVariables s (allHookVariables ctx
          st.currentFileContentForHooks) ["ACMOJ_FILE_CONTENT"])).isEmpty
          = false := by
        cases hx : tokenize (substituteVariables s (allHookVariables ctx
            st.currentFileContentForHooks) ["ACMOJ_FILE_CONTENT"]) with
        | nil => exact absurd hx htok
        | cons a l => rfl
      obtain ⟨msg, hrp⟩ := runProc_fail ctx env i hook st
        (allHookVariables ctx st.currentFileContentForHooks)
        (String.intercalate " " (tokenize (substituteVariables s
          (allHookVariables ctx st.currentFileContentForHooks)
          ["ACMOJ_FILE_CONTENT"]))) hproc
      have hbody : runHookStep ctx root env i hook st =
          ({ st with events := st.events ++ [.procSpawned i ctx.shellPath
              (String.intercalate " " (tokenize (substituteVariables s
                (allHookVariables ctx st.currentFileContentForHooks)
                ["ACMOJ_FILE_CONTENT"])))
              st.currentInputForNextPipe
              (allHookVariables ctx st.currentFileContentForHooks)] },
            some msg) := by
        unfold runHookStep
        rw [htf, hcontent]
        simp only []
        rw [hemp]
        simp only [Bool.false_eq_true, if_false]
        exact hrp
      refine ⟨nm, msg, { st with events := st.events ++ [.procSpawned i
        ctx.shellPath (String.intercalate " " (tokenize (substituteVariables s
          (allHookVariables ctx st.currentFileContentForHooks)
          ["ACMOJ_FILE_CONTENT"])))
        st.currentInputForNextPipe
        (allHookVariables ctx st.currentFileContentForHooks)] },
        hnm, ?_, rfl⟩
      unfold runStep
      rw [hnm, hbody]
    · -- script hook
      have hdisp : ∃ nm, hookDisplayNameE hook i = .ok nm := by
        unfold hookDisplayNameE
        rw [htf, hpath]
        simp only []
        split
        · exact ⟨_, rfl⟩
        · exact ⟨_, rfl⟩
      obtain ⟨nm, hnm⟩ := hdisp
      obtain ⟨msg, hrp⟩ := runProc_fail ctx env i hook st
        (allHookVariables ctx st.currentFileContentForHooks)
        (substituteVariables (pathResolve root p)
          (allHookVariables ctx st.currentFileContentForHooks)
          ["ACMOJ_FILE_CONTENT"]) hproc
      have hbody : runHookStep ctx root env i hook st =
          ({ st with events := st.events ++ [.procSpawned i ctx.shellPath
              (substituteVariables (pathResolve root p)
                (allHookVariables ctx st.currentFileContentForHooks)
                ["ACMOJ_FILE_CONTENT"])
              st.currentInputForNextPipe
              (allHookVariables ctx st.currentFileContentForHooks)] },
            some msg) := by
        unfold runHookStep
        rw [htf, hpath]
        simp only []
        exact hrp
      refine ⟨nm, msg, { st with events := st.events ++ [.procSpawned i
        ctx.shellPath (substituteVariables (pathResolve root p)
          (allHookVariables ctx st.currentFileContentForHooks)
          ["ACMOJ_FILE_CONTENT"])
        st.currentInputForNextPipe
        (allHookVariables ctx st.currentFileContentForHooks)] },
        hnm, ?_, rfl⟩
      unfold runStep
      rw [hnm, hbody]

theorem spawnCmds_singleton_action (i : Nat) (nm : String) :
    spawnCmds [Event.actionInvoked i nm] = [] := rfl

theorem spawnCmds_singleton_proc (i : Nat) (sh cmd : String)
    (sd : Option String) (vars : List (String × String)) :
    spawnCmds [Event.procSpawned i sh cmd sd vars] = [(i, cmd)] := rfl

theorem runProc_cmds (ctx : RunCtx) (env : StepEnv) (i : Nat)
    (hook : JsValue) (st : PipeState) (vars : List (String × String))
    (cmd : String) :
    spawnCmds (runProc ctx env i hook st vars cmd).1.events =
      spawnCmds st.events ++ [(i, cmd)] := by
  rw [runProc_events, spawnCmds_append, spawnCmds_singleton_proc]

/-- The thrown message of one loop body and the spawned command strings
do not depend on the incoming state: two bodies run from any two states
throw the same thing and spawn the same commands. -/
theorem runHookStep_cmds_indep (ctx : RunCtx) (root : String)
    (env : StepEnv) (i : Nat) (hook : JsValue) (st1 st2 : PipeState) :
    ∃ d : List (Nat × String),
      (runHookStep ctx root env i hook st1).2 =
        (runHookStep ctx root env i hook st2).2 ∧
      spawnCmds (runHookStep ctx root env i hook st1).1.events =
        spawnCmds st1.events ++ d ∧
      spawnCmds (runHookStep ctx root env i hook st2).1.events =
        spawnCmds st2.events ++ d := by
  unfold runHookStep
  simp only []
  split
  · -- action
    split
    · -- name is a string
      split
      · -- actionFailed
        exact ⟨[], rfl, by simp [spawnCmds_append, spawnCmds_singleton_action],
          by simp [spawnCmds_append, spawnCmds_singleton_action]⟩
      · -- ok
        exact ⟨[], rfl, by simp [spawnCmds_append, spawnCmds_singleton_action],
          by simp [spawnCmds_append, spawnCmds_singleton_action]⟩
    · exact ⟨[], rfl, by simp, by simp⟩
  · -- command
    next htf =>
    split
    · -- content is a string
      next content hcontent =>
      rw [substituteVariables_content_indep content ctx
        st2.currentFileContentForHooks st1.currentFileContentForHooks]
      split
      · -- empty command
        exact ⟨[], rfl, by simp, by simp⟩
      · -- runProc on the same command string
        refine ⟨[(i, String.intercalate " " (tokenize (substituteVariables
          content (allHookVariables ctx st1.currentFileContentForHooks)
          ["ACMOJ_FILE_CONTENT"])))], ?_, ?_, ?_⟩
        · rw [runProc_snd, runProc_snd]
        · exact runProc_cmds ctx env i hook st1 _ _
        · exact runProc_cmds ctx env i hook st2 _ _
    · exact ⟨[], rfl, by simp, by simp⟩
  · -- script
    next htf =>
    split
    · next p hpath =>
      rw [substituteVariables_content_indep (pathResolve root p) ctx
        st2.currentFileContentForHooks st1.currentFileContentForHooks]
      refine ⟨[(i, substituteVariables (pathResolve root p)
        (allHookVariables ctx st1.currentFileContentForHooks)
        ["ACMOJ_FILE_CONTENT"])], ?_, ?_, ?_⟩
      · rw [runProc_snd, runProc_snd]
      · exact runProc_cmds ctx env i hook st1 _ _
      · exact runProc_cmds ctx env i hook st2 _ _
    · exact ⟨[], rfl, by simp, by simp⟩
  · -- unrecognised type
    exact ⟨[], rfl, by simp, by simp⟩

/-- `runHookStep_cmds_indep`, lifted over the display-name computation
and the error wrapper. -/
theorem runStep_cmds_indep (ctx : RunCtx) (root : String) (env : StepEnv)
    (i : Nat) (hook : JsValue) (st1 st2 : PipeState) :
    ∃ d : List (Nat × String),
      (runStep ctx root env i hook st1).2 =
        (runStep ctx root env i hook st2).2 ∧
      spawnCmds (runStep ctx root env i hook st1).1.events =
        spawnCmds st1.events ++ d ∧
      spawnCmds (runStep ctx root env i hook st2).1.events =
        spawnCmds st2.events ++ d := by
  unfold runStep
  split
  · exact ⟨[], rfl, by simp, by simp⟩
  · obtain ⟨d, he, h1, h2⟩ := runHookStep_cmds_indep ctx root env i hook st1 st2
    cases hA : runHookStep ctx root env i hook st1 with
    | mk a1 e1 =>
      cases hB : runHookStep ctx root env i hook st2 with
      | mk a2 e2 =>
        rw [hA, hB] at he
        rw [hA] at h1
        rw [hB] at h2
        cases e1 with
        | none =>
          cases e2 with
          | none => exact ⟨d, rfl, h1, h2⟩
          | some m => exact absurd he (by simp)
        | some m =>
          cases e2 with
          | none => exact absurd he (by simp)
          | some m2 =>
            have hm : m = m2 := by
              injection he
            subst hm
            exact ⟨d, rfl, h1, h2⟩

/-- Whole-loop lift of `runStep_cmds_indep`: the loop throws the same
message and spawns the same command strings from any two starting
states. -/
theorem runHooks_cmds_indep (ctx : RunCtx) (root : String) (env : StepEnv) :
    ∀ (hooks : List JsValue) (i : Nat) (st1 st2 : PipeState),
      (runHooks ctx root env i hooks st1).2 =
        (runHooks ctx root env i hooks st2).2 ∧
      ∃ d, spawnCmds (runHooks ctx root env i hooks st1).1.events =
          spawnCmds st1.events ++ d ∧
        spawnCmds (runHooks ctx root env i hooks st2).1.events =
          spawnCmds st2.events ++ d := by
  intro hooks
  induction hooks with
  | nil =>
    intro i st1 st2
    exact ⟨rfl, [], by simp [runHooks], by simp [runHooks]⟩
  | cons hk rest ih =>
    intro i st1 st2
    obtain ⟨d0, he, h1, h2⟩ := runStep_cmds_indep ctx root env i hk st1 st2
    simp only [runHooks]
    cases hA : runStep ctx root env i hk st1 with
    | mk a1 e1 =>
      cases hB : runStep ctx root env i hk st2 with
      | mk a2 e2 =>
        rw [hA, hB] at he
        rw [hA] at h1
        rw [hB] at h2
        cases e1 with
        | some m =>
          cases e2 with
          | none => exact absurd he (by simp)
          | some m2 => exact ⟨he, d0, h1, h2⟩
        | none =>
          cases e2 with
          | some m => exact absurd he (by simp)
          | none =>
            obtain ⟨hrece, d1, hr1, hr2⟩ := ih (i + 1) a1 a2
            refine ⟨hrece, d0 ++ d1, ?_, ?_⟩
            · rw [hr1, h1, List.append_assoc]
            · rw [hr2, h2, List.append_assoc]

/-- Every spawned process's environment block binds
`ACMOJ_FILE_CONTENT`. -/
theorem runHooks_vars_content (ctx : RunCtx) (root : String)
    (env : StepEnv) :
    ∀ (hooks : List JsValue) (i : Nat) (st : PipeState),
      (∀ j sh cmd sd vars, Event.procSpawned j sh cmd sd vars ∈ st.events →
        ∃ cv, vars.lookup "ACMOJ_FILE_CONTENT" = some cv) →
      ∀ j sh cmd sd vars, Event.procSpawned j sh cmd sd vars ∈
          (runHooks ctx root env i hooks st).1.events →
        ∃ cv, vars.lookup "ACMOJ_FILE_CONTENT" = some cv := by
  intro hooks
  induction hooks with
  | nil =>
    intro i st hev
    exact hev
  | cons hk rest ih =>
    intro i st hev
    cases hrs : runStep ctx root env i hk st with
    | mk sta err =>
      have hstev : ∀ j sh cmd sd vars,
          Event.procSpawned j sh cmd sd vars ∈ sta.events →
          ∃ cv, vars.lookup "ACMOJ_FILE_CONTENT" = some cv := by
        obtain ⟨new, hnewev, _, hnewspawn⟩ :=
          runStep_events ctx root env i hk st (sta, err) hrs
        have hnewev' : sta.events = st.events ++ new := hnewev
        intro j sh cmd sd vars hmem
        rw [hnewev'] at hmem
        rcases List.mem_append.mp hmem with hold | hnew
        · exact hev _ _ _ _ _ hold
        · obtain ⟨_, _, hvars⟩ := hnewspawn _ _ _ _ _ hnew
          exact ⟨st.currentFileContentForHooks,
            by rw [hvars]; exact allHookVariables_lookup_content ctx _⟩
      have hred : runHooks ctx root env i (hk :: rest) st =
          (match (sta, err) with
           | (stb, none) => runHooks ctx root env (i + 1) rest stb
           | (stb, some msg) => (stb, some msg)) := by
        simp only [runHooks]
        rw [hrs]
      cases err with
      | some m =>
        intro j sh cmd sd vars hmem
        rw [hred] at hmem
        exact hstev _ _ _ _ _ hmem
      | none =>
        intro j sh cmd sd vars hmem
        rw [hred] at hmem
        exact ih (i + 1) sta hstev _ _ _ _ _ hmem

end Acmoj

namespace Acmoj

/-! ## Claims -/

/-- C9: if the config read fails with ENOENT, or the file parses to an
empty array, `processPreSubmitHooks` returns
`{content: initialFileContent, outputUsed: false, error: undefined}`
without executing any step (the trace is empty). -/
theorem c9_absent_or_empty_config (ctx : RunCtx) (env : StepEnv)
    (initial : String) :
    processPreSubmitHooks ctx .enoent env initial =
      .result ⟨initial, none, false⟩ [] ∧
    processPreSubmitHooks ctx (.parsed (.arr [])) env initial =
      .result ⟨initial, none, false⟩ [] := by
  unfold processPreSubmitHooks
  cases hws : ctx.workspaceRoot with
  | none => exact ⟨rfl, rfl⟩
  | some root => exact ⟨rfl, rfl⟩

/-- C10: for a document with no workspace folder, `processPreSubmitHooks`
returns `{content: initialFileContent, outputUsed: false,
error: undefined}` immediately: no step runs (empty trace) and the
config file is never consulted (the outcome is the same for any two
config readings and step environments). -/
theorem c10_no_workspace_folder (ctx : RunCtx)
    (config config' : ConfigOutcome) (env env' : StepEnv) (initial : String)
    (hroot : ctx.workspaceRoot = none) :
    processPreSubmitHooks ctx config env initial =
      .result ⟨initial, none, false⟩ [] ∧
    processPreSubmitHooks ctx config env initial =
      processPreSubmitHooks ctx config' env' initial := by
  unfold processPreSubmitHooks
  rw [hroot]
  exact ⟨rfl, rfl⟩

theorem c10_no_workspace_folder_witness :
    noWsCtx.workspaceRoot = none ∧
    (processPreSubmitHooks noWsCtx .enoent envAB "abc" =
        .result ⟨"abc", none, false⟩ [] ∧
      processPreSubmitHooks noWsCtx .enoent envAB "abc" =
        processPreSubmitHooks noWsCtx
          (.parsed (.arr [cmdHook "true"])) envPipeX "abc") :=
  ⟨rfl, c10_no_workspace_folder noWsCtx .enoent
    (.parsed (.arr [cmdHook "true"])) envAB envPipeX "abc" rfl⟩

/-- C1 counterexample: the config file contains `[42]`, which parses as a
JSON array but not as an array of HookStep-shaped objects; the claim
demands a non-empty `error`, yet the run returns `error = undefined`
(the element is silently accepted and skipped; content unchanged, no
step executed). -/
theorem c1_counterexample :
    hookShaped (.num 42) = false ∧
    processPreSubmitHooks wCtx (.parsed (.arr [.num 42])) envAB "abc" =
      .result ⟨"abc", none, false⟩ [] :=
  ⟨rfl, by decide⟩

/-- C1 (amended): only a failing read, a `JSON.parse` failure, or a parse
result that is not an array produce the config-error result: content
unchanged, `outputUsed` false, a non-empty `error`, and no step
executed.  A value that parses to an array is accepted without
validating its elements against the HookStep shapes. -/
theorem c1_config_error_result (ctx : RunCtx) (env : StepEnv)
    (initial root m : String) (v : JsValue)
    (hroot : ctx.workspaceRoot = some root)
    (hnotarr : ∀ elems, v ≠ .arr elems) :
    (processPreSubmitHooks ctx (.readFailed m) env initial =
        .result ⟨initial,
          some ("Error in .acmoj/pre-submit.json: " ++ m), false⟩ [] ∧
      ("Error in .acmoj/pre-submit.json: " ++ m) ≠ "") ∧
    (processPreSubmitHooks ctx (.parseFailed m) env initial =
        .result ⟨initial,
          some ("Error in .acmoj/pre-submit.json: " ++ m), false⟩ [] ∧
      ("Error in .acmoj/pre-submit.json: " ++ m) ≠ "") ∧
    (∃ e, processPreSubmitHooks ctx (.parsed v) env initial =
        .result ⟨initial, some e, false⟩ [] ∧ e ≠ "") := by
  have hne : ("Error in .acmoj/pre-submit.json: " ++ m) ≠ "" :=
    append_ne_empty_left _ _ (by decide)
  unfold processPreSubmitHooks
  rw [hroot]
  refine ⟨⟨rfl, hne⟩, ⟨rfl, hne⟩, ?_⟩
  cases v with
  | arr elems => exact absurd rfl (hnotarr elems)
  | null => exact ⟨_, rfl, append_ne_empty_left _ _ (by decide)⟩
  | bool b => exact ⟨_, rfl, append_ne_empty_left _ _ (by decide)⟩
  | num n => exact ⟨_, rfl, append_ne_empty_left _ _ (by decide)⟩
  | str s => exact ⟨_, rfl, append_ne_empty_left _ _ (by decide)⟩
  | obj fields => exact ⟨_, rfl, append_ne_empty_left _ _ (by decide)⟩

theorem c1_config_error_result_witness :
    wCtx.workspaceRoot = some "/ws" ∧
    (∀ elems, JsValue.obj [("not", JsValue.str "an array")] ≠ .arr elems) ∧
    ((processPreSubmitHooks wCtx (.readFailed "EACCES") envAB "abc" =
        .result ⟨"abc",
          some ("Error in .acmoj/pre-submit.json: " ++ "EACCES"), false⟩ [] ∧
      ("Error in .acmoj/pre-submit.json: " ++ "EACCES") ≠ "") ∧
    (processPreSubmitHooks wCtx (.parseFailed "EACCES") envAB "abc" =
        .result ⟨"abc",
          some ("Error in .acmoj/pre-submit.json: " ++ "EACCES"), false⟩ [] ∧
      ("Error in .acmoj/pre-submit.json: " ++ "EACCES") ≠ "") ∧
    (∃ e, processPreSubmitHooks wCtx
        (.parsed (.obj [("not", .str "an array")])) envAB "abc" =
        .result ⟨"abc", some e, false⟩ [] ∧ e ≠ "")) :=
  ⟨rfl, fun _ h => JsValue.noConfusion h,
    c1_config_error_result wCtx envAB "abc" "/ws" "EACCES"
      (.obj [("not", .str "an array")]) rfl
      (fun _ h => JsValue.noConfusion h)⟩

/-- C2 counterexample: with the variable map iterated as A then B, the
value substituted for `${A}` introduces the placeholder `${B}`, which
the later pass for B then substitutes: the result is `x`, not the
verbatim insertion `${B}` the claim requires (no recursive
substitution). -/
theorem c2_counterexample :
    substituteVariables "$\x7bA\x7d" [("A", "$\x7bB\x7d"), ("B", "x")] []
      = "x" ∧
    ("x" : String) ≠ "$\x7bB\x7d" :=
  ⟨by decide, by decide⟩

/-- C2 (amended): `substituteVariables` performs one global replacement
pass per key, sequentially in map iteration order, skipping excluded
keys; each pass replaces every occurrence of `${KEY}` in the result of
the earlier passes, with JavaScript replacement-string treatment of
dollar sequences in the value.  Hence placeholders introduced by an
earlier key's value are substituted by later keys (but not by earlier
ones), values containing dollar sequences are interpreted rather than
copied verbatim, excluded keys' placeholders and placeholders matching
no key are left intact, and a template without any dollar character is
returned unchanged. -/
theorem c2_sequential_substitution :
    (∀ (t : String) (vars : List (String × String)) (excl : List String),
        noDollar t = true → substituteVariables t vars excl = t) ∧
    substituteVariables "$\x7bA\x7d" [("A", "$\x7bB\x7d"), ("B", "x")] []
      = "x" ∧
    substituteVariables "$\x7bA\x7d" [("B", "x"), ("A", "$\x7bB\x7d")] []
      = "$\x7bB\x7d" ∧
    substituteVariables "$\x7bA\x7d" [("A", "y")] ["A"] = "$\x7bA\x7d" ∧
    substituteVariables "$\x7bA\x7d" [("A", "$$")] [] = "$" ∧
    substituteVariables "a $\x7bC\x7d b" [("A", "y")] [] = "a $\x7bC\x7d b" :=
  ⟨substituteVariables_no_dollar, by decide, by decide, by decide,
    by decide, by decide⟩

theorem c2_sequential_substitution_witness :
    noDollar "hello world" = true ∧
    substituteVariables "hello world" [("A", "x")] ["B"] = "hello world" :=
  ⟨by decide,
    c2_sequential_substitution.1 "hello world" [("A", "x")] ["B"] (by decide)⟩

/-- C6: a command/script process resolves with its captured stdout and
stderr exactly when it exits with code 0; any other close code rejects
with a message carrying the full command, both captured streams and the
marker text `exited with code `, while a spawn failure rejects with the
spawn error itself — distinguishable from an exit rejection whenever the
spawn cause does not itself contain that marker. -/
theorem c6_exit_code_contract :
    (∀ cmd out err,
        processPromiseResult cmd (.exited (some 0) out err) = .ok (out, err)) ∧
    (∀ cmd o res, processPromiseResult cmd o = .ok res →
        o = .exited (some 0) res.1 res.2) ∧
    (∀ cmd code out err, code ≠ some 0 →
        processPromiseResult cmd (.exited code out err) =
          .error (exitMessage cmd code out err) ∧
        strContains (exitMessage cmd code out err) out ∧
        strContains (exitMessage cmd code out err) err ∧
        strContains (exitMessage cmd code out err) "exited with code ") ∧
    (∀ cmd m, processPromiseResult cmd (.spawnFailed m) = .error m) ∧
    (∀ cmd code out err m, ¬ strContains m "exited with code " →
        exitMessage cmd code out err ≠ m) := by
  refine ⟨?_, ?_, ?_, ?_, ?_⟩
  · intro cmd out err
    simp [processPromiseResult]
  · intro cmd o res h
    cases o with
    | spawnFailed m =>
      simp only [processPromiseResult] at h
      exact Except.noConfusion h
    | exited code out err =>
      simp only [processPromiseResult] at h
      split at h
      · next hcode =>
        injection h with h1
        rw [← h1, hcode]
      · exact Except.noConfusion h
  · intro cmd code out err hne
    refine ⟨?_, exitMessage_contains_stdout cmd code out err,
      exitMessage_contains_stderr cmd code out err,
      exitMessage_contains_tag cmd code out err⟩
    simp only [processPromiseResult]
    rw [if_neg hne]
  · intro cmd m
    rfl
  · intro cmd code out err m hm heq
    exact hm (heq ▸ exitMessage_contains_tag cmd code out err)

theorem c6_exit_code_contract_witness :
    ((some 1 : Option Int) ≠ some 0) ∧
    (processPromiseResult "false" (.exited (some 1) "o" "e") =
        .error (exitMessage "false" (some 1) "o" "e") ∧
      strContains (exitMessage "false" (some 1) "o" "e") "o" ∧
      strContains (exitMessage "false" (some 1) "o" "e") "e" ∧
      strContains (exitMessage "false" (some 1) "o" "e")
        "exited with code ") ∧
    (¬ strContains "ENOENT" "exited with code " ∧
      exitMessage "false" (some 1) "o" "e" ≠ "ENOENT") ∧
    processPromiseResult "x" (.exited (some 0) "a" "b") = .ok ("a", "b") := by
  have hshort : ¬ strContains "ENOENT" "exited with code " :=
    not_strContains_of_short _ _ (by decide)
  exact ⟨by decide,
    c6_exit_code_contract.2.2.1 "false" (some 1) "o" "e" (by decide),
    ⟨hshort,
      c6_exit_code_contract.2.2.2.2 "false" (some 1) "o" "e" "ENOENT" hshort⟩,
    c6_exit_code_contract.1 "x" "a" "b"⟩

end Acmoj

namespace Acmoj

example : substituteVariables "$\x7bA\x7d" [("A", "x")] [] = "x" := by decide

example : substituteVariables "$\x7bA\x7d y" [("A", "x")] [] = "x y" := by decide

example : substituteVariables "$\x7bA\x7d" [("A", "$\x7bB\x7d"), ("B", "x")] [] = "x" := by
  decide

example : substituteVariables "$\x7bA\x7d" [("B", "x"), ("A", "$\x7bB\x7d")] [] =
    "$\x7bB\x7d" := by decide

example : substituteVariables "$\x7bA\x7d" [("A", "x")] ["A"] = "$\x7bA\x7d" := by decide

example : substituteVariables "$\x7bA\x7d" [("A", "$$")] [] = "$" := by decide

example : substituteVariables "echo $\x7bACMOJ_FILE_NAME_NO_SUFFIX\x7d"
    [("ACMOJ_FILE_NAME_NO_SUFFIX", "sol")] [] = "echo sol" := by decide

end Acmoj

namespace Acmoj

theorem contentAfter_no_action (env : StepEnv) :
    ∀ (hooks : List JsValue) (i : Nat) (c : String),
      (∀ h ∈ hooks, typeField h ≠ some "action") →
      contentAfter env i hooks c = c := by
  intro hooks
  induction hooks with
  | nil =>
    intro i c _
    rfl
  | cons hk rest ih =>
    intro i c hna
    show contentAfter env (i + 1) rest (contentStep env i hk c) = c
    have hstep : contentStep env i hk c = c := by
      unfold contentStep
      rw [if_neg (hna hk (List.mem_cons_self _ _))]
    rw [hstep]
    exact ih (i + 1) c (fun h hm => hna h (List.mem_cons_of_mem _ hm))

/-- C8: the tracked file content (`variables.ACMOJ_FILE_CONTENT`) is
updated only by action steps: over any successfully completed stretch of
the loop it equals the fold of `contentStep`, which replaces it with the
re-read document text exactly when the step is an action and the active
document is still the pipeline's document, and leaves it unchanged in
every other case — in particular command/script steps and their stdout
never change it, and a run with no action step leaves it untouched. -/
theorem c8_content_frame (ctx : RunCtx) (root : String) (env : StepEnv)
    (hooks : List JsValue) (i : Nat) (st st1 : PipeState)
    (hrun : runHooks ctx root env i hooks st = (st1, none)) :
    st1.currentFileContentForHooks =
      contentAfter env i hooks st.currentFileContentForHooks ∧
    ((∀ h ∈ hooks, typeField h ≠ some "action") →
      st1.currentFileContentForHooks = st.currentFileContentForHooks) := by
  have h1 := runHooks_content ctx root env hooks i st st1 hrun
  refine ⟨h1, fun hna => ?_⟩
  rw [h1]
  exact contentAfter_no_action env hooks i _ hna

theorem c8_content_frame_witness :
    runHooks wCtx "/ws" envAction 0 [actionHook "editor.fmt"]
      (initSt "orig") =
      (⟨"newtext", none, [], false, [.actionInvoked 0 "editor.fmt"]⟩, none) ∧
    ("newtext" = contentAfter envAction 0 [actionHook "editor.fmt"] "orig" ∧
      ((∀ h ∈ [actionHook "editor.fmt"], typeField h ≠ some "action") →
        "newtext" = "orig")) := by
  have hrun : runHooks wCtx "/ws" envAction 0 [actionHook "editor.fmt"]
      (initSt "orig") =
      (⟨"newtext", none, [], false, [.actionInvoked 0 "editor.fmt"]⟩,
        none) := by decide
  exact ⟨hrun, c8_content_frame wCtx "/ws" envAction _ 0 _ _ hrun⟩

/-- C4: a completed run with at least one submit-mode command/script step
returns `outputUsed = true` and, as content, the concatenation in step
order of exactly the submit-mode steps' captured stdouts. -/
theorem c4_submit_concatenation (ctx : RunCtx) (root : String)
    (env : StepEnv) (hooks : List JsValue) (initial : String)
    (r : PreSubmitResult) (t : List Event)
    (hroot : ctx.workspaceRoot = some root)
    (hsome : hooks.any isSubmitProcStep = true)
    (hres : processPreSubmitHooks ctx (.parsed (.arr hooks)) env initial =
      .result r t) :
    r.outputUsed = true ∧
    r.content = String.join (submitStdouts env 0 hooks) := by
  unfold processPreSubmitHooks at hres
  rw [hroot] at hres
  simp only [] at hres
  have hne : hooks.isEmpty = false := by
    cases hooks with
    | nil => exact absurd hsome (by decide)
    | cons a l => rfl
  rw [hne] at hres
  simp only [Bool.false_eq_true, if_false] at hres
  cases hrh : runHooks ctx root env 0 hooks (initSt initial) with
  | mk stf err =>
    rw [hrh] at hres
    cases err with
    | some m => exact PipelineOutcome.noConfusion hres
    | none =>
      have hsub := runHooks_submit ctx root env hooks 0 (initSt initial)
        stf hrh
      have hacc : stf.preSubmitStringAccumulator =
          submitStdouts env 0 hooks := by
        rw [hsub.1]
        rfl
      have hused : stf.anyOutputSubmitUsed = true := by
        rw [hsub.2]
        show (false || hooks.any isSubmitProcStep) = true
        rw [hsome]
        rfl
      injection hres with h1 h2
      rw [← h1]
      exact ⟨by show stf.anyOutputSubmitUsed = true; exact hused,
        by show (if stf.anyOutputSubmitUsed then
            String.join stf.preSubmitStringAccumulator
          else stf.currentFileContentForHooks) = _
           rw [hused, if_pos rfl, hacc]⟩

theorem c4_submit_concatenation_witness :
    wCtx.workspaceRoot = some "/ws" ∧
    ([cmdHookOut "true" "submit", cmdHookOut "true" "submit"].any
      isSubmitProcStep = true) ∧
    processPreSubmitHooks wCtx (.parsed (.arr [cmdHookOut "true" "submit",
      cmdHookOut "true" "submit"])) envAB "orig" =
      .result ⟨"AB", none, true⟩
        [.procSpawned 0 "/bin/sh" "true" none (allHookVariables wCtx "orig"),
         .procSpawned 1 "/bin/sh" "true" none
           (allHookVariables wCtx "orig")] ∧
    ((⟨"AB", none, true⟩ : PreSubmitResult).outputUsed = true ∧
      (⟨"AB", none, true⟩ : PreSubmitResult).content =
        String.join (submitStdouts envAB 0 [cmdHookOut "true" "submit",
          cmdHookOut "true" "submit"])) := by
  have hres : processPreSubmitHooks wCtx
      (.parsed (.arr [cmdHookOut "true" "submit",
        cmdHookOut "true" "submit"])) envAB "orig" =
      .result ⟨"AB", none, true⟩
        [.procSpawned 0 "/bin/sh" "true" none (allHookVariables wCtx "orig"),
         .procSpawned 1 "/bin/sh" "true" none
           (allHookVariables wCtx "orig")] := by decide
  exact ⟨rfl, by decide, hres,
    c4_submit_concatenation wCtx "/ws" envAB _ "orig" _ _ rfl (by decide)
      hres⟩

end Acmoj

namespace Acmoj

/-- C5 counterexample: in the run
`[Command(output=pipe, stdout="X"), 42, Command]` the process of step 2
receives `"X"` on stdin although its immediate predecessor (the
unrecognised step `42`, silently accepted by the config loader) is not a
pipe step: an unrecognised step skips the loop body entirely and so does
not reset the pending stdin. -/
theorem c5_counterexample :
    spawnStdins (outcomeTrace (processPreSubmitHooks wCtx
      (.parsed (.arr [cmdHookOut "true" "pipe", .num 42, cmdHook "true"]))
      envPipeX "orig")) = [(0, none), (2, some "X")] ∧
    isPipeProcStep (JsValue.num 42) = false ∧
    hookShaped (JsValue.num 42) = false :=
  ⟨by decide, rfl, rfl⟩

/-- C5 (amended): in every run whose steps are all HookStep-shaped, a
spawned process's stdin is exactly `pipeExpected`: the stdout of its
immediate predecessor when that predecessor is a pipe-mode
command/script step, and closed without input otherwise — so a step's
stdout reaches at most the next step, and only under `pipe`.  (Without
the shapedness restriction an unrecognised step leaves the pending
stdin set, and a later process can receive the output of a pipe step
that is not its immediate predecessor.) -/
theorem c5_pipe_discipline (ctx : RunCtx) (env : StepEnv)
    (hooks : List JsValue) (initial : String)
    (hsh : ∀ h ∈ hooks, hookShaped h = true) :
    ∀ j sh cmd sd vars,
      Event.procSpawned j sh cmd sd vars ∈ outcomeTrace
        (processPreSubmitHooks ctx (.parsed (.arr hooks)) env initial) →
      sd = pipeExpected hooks env j := by
  intro j sh cmd sd vars hmem
  unfold processPreSubmitHooks at hmem
  cases hws : ctx.workspaceRoot with
  | none =>
    rw [hws] at hmem
    exact absurd hmem (List.not_mem_nil _)
  | some root =>
    rw [hws] at hmem
    simp only [] at hmem
    by_cases hne : hooks.isEmpty = true
    · rw [if_pos hne] at hmem
      exact absurd hmem (List.not_mem_nil _)
    · rw [if_neg hne] at hmem
      cases hrh : runHooks ctx root env 0 hooks (initSt initial) with
      | mk stf err =>
        rw [hrh] at hmem
        have hinv := runHooks_stdin_inv ctx root env hooks hsh hooks 0
          (initSt initial) (List.drop_zero _) rfl
          (fun _ _ _ _ _ hm => absurd hm (List.not_mem_nil _))
        rw [hrh] at hinv
        cases err with
        | some m => exact hinv j sh cmd sd vars hmem
        | none => exact hinv j sh cmd sd vars hmem

theorem c5_pipe_discipline_witness :
    (∀ h ∈ [cmdHookOut "true" "pipe", cmdHook "cat"],
      hookShaped h = true) ∧
    Event.procSpawned 1 "/bin/sh" "cat" (some "X")
      (allHookVariables wCtx "orig") ∈ outcomeTrace
        (processPreSubmitHooks wCtx (.parsed (.arr [cmdHookOut "true" "pipe",
          cmdHook "cat"])) envPipeX "orig") ∧
    some "X" = pipeExpected [cmdHookOut "true" "pipe", cmdHook "cat"]
      envPipeX 1 := by
  refine ⟨by decide, by decide, ?_⟩
  exact c5_pipe_discipline wCtx envPipeX
    [cmdHookOut "true" "pipe", cmdHook "cat"] "orig" (by decide) 1 "/bin/sh"
    "cat" (some "X") (allHookVariables wCtx "orig") (by decide)

end Acmoj

namespace Acmoj

/-- C7: `ACMOJ_FILE_CONTENT` is excluded from substitution into command
lines and script paths, so the command strings a run passes to the shell
are independent of the tracked file content — two runs differing only in
the initial file content spawn identical command strings — while the
variables merged into every spawned process's environment block still
bind `ACMOJ_FILE_CONTENT`. -/
theorem c7_content_isolation (ctx : RunCtx) (config : ConfigOutcome)
    (env : StepEnv) (c1 c2 : String) :
    spawnCmds (outcomeTrace (processPreSubmitHooks ctx config env c1)) =
      spawnCmds (outcomeTrace (processPreSubmitHooks ctx config env c2)) ∧
    (∀ j sh cmd sd vars, Event.procSpawned j sh cmd sd vars ∈
        outcomeTrace (processPreSubmitHooks ctx config env c1) →
      ∃ cv, vars.lookup "ACMOJ_FILE_CONTENT" = some cv) := by
  constructor
  · unfold processPreSubmitHooks
    cases hws : ctx.workspaceRoot with
    | none => rfl
    | some root =>
      cases config with
      | enoent => rfl
      | readFailed m => rfl
      | parseFailed m => rfl
      | parsed v =>
        cases v with
        | null => rfl
        | bool b => rfl
        | num n => rfl
        | str s => rfl
        | obj fields => rfl
        | arr hooks =>
          simp only []
          by_cases hne : hooks.isEmpty = true
          · rw [if_pos hne, if_pos hne]
            rfl
          · rw [if_neg hne, if_neg hne]
            obtain ⟨he, d, h1, h2⟩ := runHooks_cmds_indep ctx root env
              hooks 0 (initSt c1) (initSt c2)
            cases hA : runHooks ctx root env 0 hooks (initSt c1) with
            | mk a1 e1 =>
              cases hB : runHooks ctx root env 0 hooks (initSt c2) with
              | mk a2 e2 =>
                rw [hA, hB] at he
                rw [hA] at h1
                rw [hB] at h2
                have h1' : spawnCmds a1.events = d := by
                  have hinit : spawnCmds (initSt c1).events = [] := rfl
                  rw [hinit] at h1
                  simpa using h1
                have h2' : spawnCmds a2.events = d := by
                  have hinit : spawnCmds (initSt c2).events = [] := rfl
                  rw [hinit] at h2
                  simpa using h2
                cases e1 with
                | some m =>
                  cases e2 with
                  | none => exact absurd he (by simp)
                  | some m2 => exact h1'.trans h2'.symm
                | none =>
                  cases e2 with
                  | some m => exact absurd he (by simp)
                  | none => exact h1'.trans h2'.symm
  · intro j sh cmd sd vars hmem
    unfold processPreSubmitHooks at hmem
    cases hws : ctx.workspaceRoot with
    | none =>
      rw [hws] at hmem
      exact absurd hmem (List.not_mem_nil _)
    | some root =>
      rw [hws] at hmem
      cases config with
      | enoent => exact absurd hmem (List.not_mem_nil _)
      | readFailed m => exact absurd hmem (List.not_mem_nil _)
      | parseFailed m => exact absurd hmem (List.not_mem_nil _)
      | parsed v =>
        cases v with
        | null => exact absurd hmem (List.not_mem_nil _)
        | bool b => exact absurd hmem (List.not_mem_nil _)
        | num n => exact absurd hmem (List.not_mem_nil _)
        | str s => exact absurd hmem (List.not_mem_nil _)
        | obj fields => exact absurd hmem (List.not_mem_nil _)
        | arr hooks =>
          simp only [] at hmem
          by_cases hne : hooks.isEmpty = true
          · rw [if_pos hne] at hmem
            exact absurd hmem (List.not_mem_nil _)
          · rw [if_neg hne] at hmem
            cases hrh : runHooks ctx root env 0 hooks (initSt c1) with
            | mk stf err =>
              rw [hrh] at hmem
              have hinv := runHooks_vars_content ctx root env hooks 0
                (initSt c1)
                (fun _ _ _ _ _ hm => absurd hm (List.not_mem_nil _))
              rw [hrh] at hinv
              cases err with
              | some m => exact hinv j sh cmd sd vars hmem
              | none => exact hinv j sh cmd sd vars hmem

theorem c7_content_isolation_witness :
    (Event.procSpawned 0 "/bin/sh" "true" none (allHookVariables wCtx "orig")
      ∈ outcomeTrace (processPreSubmitHooks wCtx
        (.parsed (.arr [cmdHook "true"])) envAB "orig")) ∧
    (∃ cv, (allHookVariables wCtx "orig").lookup "ACMOJ_FILE_CONTENT" =
      some cv) := by
  refine ⟨by decide, ?_⟩
  exact (c7_content_isolation wCtx (.parsed (.arr [cmdHook "true"])) envAB
    "orig" "other").2 0 "/bin/sh" "true" none (allHookVariables wCtx "orig")
    (by decide)

end Acmoj

namespace Acmoj

/-- C3: when the step at position `pre.length` fails with one of the
enumerated kinds (editor-action error, spawn error, non-zero exit, or an
empty/invalid command string after substitution), the whole run throws
an error whose message carries that step's display name (its
description, or the derived short label), no later step executes (every
trace event either predates the failing step or carries its index),
nothing further is appended to the submit accumulator, and no
`PreSubmitResult` is produced at all — the failure is not reported
through `PreSubmitResult.error`. -/
theorem c3_failure_aborts (ctx : RunCtx) (root : String) (env : StepEnv)
    (initial : String) (pre : List JsValue) (hook : JsValue)
    (post : List JsValue) (st1 : PipeState)
    (hroot : ctx.workspaceRoot = some root)
    (hpre : runHooks ctx root env 0 pre (initSt initial) = (st1, none))
    (hfail : stepFailCondition ctx env pre.length hook
      st1.currentFileContentForHooks) :
    ∃ (nm rest : String) (st2 : PipeState),
      hookDisplayNameE hook pre.length = .ok nm ∧
      processPreSubmitHooks ctx (.parsed (.arr (pre ++ hook :: post))) env
        initial =
        .thrown ("Hook " ++ nm ++ " failed: " ++ rest) st2.events ∧
      st2.preSubmitStringAccumulator = st1.preSubmitStringAccumulator ∧
      (∀ e ∈ st2.events, e ∈ st1.events ∨ eventIdx e = pre.length) := by
  obtain ⟨nm, rest, st2, hnm, hrs, hacc⟩ :=
    runStep_fail ctx root env pre.length hook st1 hfail
  obtain ⟨new, hnewev, hnewidx, _⟩ :=
    runStep_events ctx root env pre.length hook st1
      (st2, some ("Hook " ++ nm ++ " failed: " ++ rest)) hrs
  have hnewev' : st2.events = st1.events ++ new := hnewev
  refine ⟨nm, rest, st2, hnm, ?_, hacc, ?_⟩
  · unfold processPreSubmitHooks
    rw [hroot]
    simp only []
    have hne : (pre ++ hook :: post).isEmpty = false := by
      cases pre <;> rfl
    rw [hne]
    simp only [Bool.false_eq_true, if_false]
    have happ := runHooks_append ctx root env pre 0 (initSt initial) st1
      (hook :: post) hpre
    rw [happ]
    simp only [Nat.zero_add]
    simp only [runHooks]
    rw [hrs]
  · intro e he
    rw [hnewev'] at he
    rcases List.mem_append.mp he with h | h
    · exact Or.inl h
    · exact Or.inr (hnewidx e h)

theorem c3_failure_aborts_witness :
    wCtx.workspaceRoot = some "/ws" ∧
    runHooks wCtx "/ws" envFail1 0 [] (initSt "orig") =
      (initSt "orig", none) ∧
    stepFailCondition wCtx envFail1 0 (cmdHook "false") "orig" ∧
    (∃ (nm rest : String) (st2 : PipeState),
      hookDisplayNameE (cmdHook "false") 0 = .ok nm ∧
      processPreSubmitHooks wCtx
        (.parsed (.arr ([] ++ cmdHook "false" ::
          [cmdHookOut "true" "submit"]))) envFail1 "orig" =
        .thrown ("Hook " ++ nm ++ " failed: " ++ rest) st2.events ∧
      st2.preSubmitStringAccumulator =
        (initSt "orig").preSubmitStringAccumulator ∧
      (∀ e ∈ st2.events, e ∈ (initSt "orig").events ∨ eventIdx e = 0)) := by
  have hfail : stepFailCondition wCtx envFail1 0 (cmdHook "false")
      "orig" := by
    refine Or.inr (Or.inr ⟨Or.inl ⟨rfl, "false", rfl, ?_⟩, ?_⟩)
    · decide
    · exact Or.inr ⟨some 1, "out1", "err1", rfl, by decide⟩
  exact ⟨rfl, rfl, hfail,
    c3_failure_aborts wCtx "/ws" envFail1 "orig" [] (cmdHook "false")
      [cmdHookOut "true" "submit"] (initSt "orig") rfl rfl hfail⟩

end Acmoj
